import Mathlib

/-!
# CodeRain

A shallow embedding of `src/CodeRain/main.cpp` and the properties its specification
states about it.

Modelling conventions.

* The global `std::mt19937` generator is an oracle: a value of `Rng` lists the outcomes of
  the integer draws and of the real draws still to come.  A draw returns `none` when the
  oracle is exhausted, when the `assert (max > min)` of `randomValue` fails, or when the
  next outcome is outside the closed range that was asked for (such an outcome is not a
  behaviour of the distribution).  A `while` loop that draws is given as fuel the number of
  integer outcomes left, one of which every iteration consumes, so that `none` never comes
  from the fuel (`getRandomCharLoop_fuel`, `spawnLoop_fuel`).
* `unsigned int` values are naturals; the arithmetic that can wrap is reduced modulo `2^32`.
  `int` values are integers.
* A `float` value is a rational, and `float` arithmetic is IEEE-754 binary32: every
  operation and every conversion to `float` is rounded to nearest, ties to even
  (`f32Round`), as `float` expressions are on targets that evaluate them in single precision
  without contraction.  An operation whose result is not finite returns `none`: infinities
  and NaN are outside the model.
* A conversion whose result the source leaves undefined (a `float` outside the range of the
  integer type it is cast to) returns `none`.
* The console screen `Cs` is the environment: its mode is a parameter and what is streamed
  into it is recorded as a list of `CellWrite`.
* A `Strip` being a member of the vector it receives by reference is explicit: `self` is
  its index in that vector, if it has one, and `view` is the vector as the running member
  function sees it.
-/

namespace CodeRain

/-! ## Constants (main.cpp, lines 42-53) -/

def minStripLength : Nat := 10
def maxStripLength : Nat := 75
def minStripSpeed : ℚ := 10
def maxStripSpeed : ℚ := 50
def headLength : Nat := 5
def tailLength : Nat := 4
def tailExtensionLength : Nat := 3
def numberOfStrips : Nat := 74
def numberOfSpinners : Nat := 100

/-! ## Machine integers -/

/-- Unsigned 32-bit addition. -/
def uadd (a b : Nat) : Nat := (a + b) % 2 ^ 32

/-- Unsigned 32-bit subtraction. -/
def usub (a b : Nat) : Nat := (a % 2 ^ 32 + 2 ^ 32 - b % 2 ^ 32) % 2 ^ 32

/-- Conversion `static_cast<int>` of an unsigned 32-bit value (two's complement). -/
def toInt32 (n : Nat) : Int :=
  if n % 2 ^ 32 < 2 ^ 31 then ((n % 2 ^ 32 : Nat) : Int) else ((n % 2 ^ 32 : Nat) : Int) - 2 ^ 32

/-- Truncation towards zero. -/
def truncToInt (x : ℚ) : Int := if 0 ≤ x then ⌊x⌋ else ⌈x⌉

/-- Conversion `static_cast<int>` of a float: truncation towards zero; undefined (`none`)
when the truncated value is not an `int`. -/
def floatToInt (x : ℚ) : Option Int :=
  if -(2 ^ 31) ≤ truncToInt x ∧ truncToInt x < 2 ^ 31 then some (truncToInt x) else none

/-! ## The random source (lines 55-81) -/

/-- Outcomes of the draws to come: those of `uniform_int_distribution` and those of
`uniform_real_distribution`. -/
structure Rng where
  ints : List Nat
  floats : List ℚ
deriving DecidableEq

/-- The overload `randomValue (unsigned int, unsigned int)`. -/
def randomValue (min max : Nat) (g : Rng) : Option (Nat × Rng) :=
  match g.ints with
  | [] => none
  | d :: ds => if min < max ∧ min ≤ d ∧ d ≤ max then some (d, { g with ints := ds }) else none

/-- The overload `randomValue (float, float)`. The range is taken closed:
`std::uniform_real_distribution` draws from `[min, max)`, and rounding to `float` can make
it return `max`. -/
def randomValueFloat (min max : ℚ) (g : Rng) : Option (ℚ × Rng) :=
  match g.floats with
  | [] => none
  | d :: ds => if min < max ∧ min ≤ d ∧ d ≤ max then some (d, { g with floats := ds }) else none

/-- The loop `while (value == 19u) value = randomValue (0u, 54u);`. -/
def getRandomCharLoop : Nat → Nat → Rng → Option (Nat × Rng)
  | 0, _, _ => none
  | fuel + 1, value, g =>
    if value = 19 then
      (randomValue 0 54 g).bind fun r => getRandomCharLoop fuel r.1 r.2
    else some (value, g)

def getRandomChar (g : Rng) : Option (Nat × Rng) :=
  getRandomCharLoop (g.ints.length + 1) 19 g

/-! ## Binary32 arithmetic and the colour blend (lines 83-97) -/

/-- Round to the nearest integer, ties to even. -/
def roundHalfEven (s : ℚ) : Int :=
  let f : Int := ⌊s⌋
  let r : ℚ := s - f
  if r < 1 / 2 then f else if 1 / 2 < r then f + 1 else if f % 2 = 0 then f else f + 1

/-- The number of halvings that bring `n` below 2, at most `fuel` of them. -/
def log2Fuel : Nat → Nat → Nat
  | 0, _ => 0
  | fuel + 1, n => if n < 2 then 0 else log2Fuel fuel (n / 2) + 1

/-- The binary exponent of the leading digit of a positive `x`, the integer `e` with
`2 ^ e ≤ x < 2 ^ (e + 1)`, and 0 when `x ≤ 0`: it is `Int.log 2 x` (`floorLog2_eq_log`),
computed from the lengths of the numerator and the denominator. -/
def floorLog2 (x : ℚ) : Int :=
  if x ≤ 0 then 0
  else
    let e : Int := (log2Fuel x.num.natAbs x.num.natAbs : Int) - (log2Fuel x.den x.den : Int)
    if (2 : ℚ) ^ e ≤ x then e else e - 1

/-- The binary exponent of the last place of the binary32 numbers around `x`: 24 significant
bits, subnormal below `2^-126`. -/
def f32Quantum (x : ℚ) : Int := max (floorLog2 |x| - 23) (-149)

/-- The binary32 number nearest to `x`, were the exponent range unbounded above. -/
def f32Nearest (x : ℚ) : ℚ :=
  if x = 0 then 0 else roundHalfEven (x / (2 : ℚ) ^ f32Quantum x) * (2 : ℚ) ^ f32Quantum x

/-- Rounding of an exact result to binary32; `none` when the result is not finite. -/
def f32Round (x : ℚ) : Option ℚ :=
  if |f32Nearest x| < (2 : ℚ) ^ (128 : Nat) then some (f32Nearest x) else none

def f32Add (a b : ℚ) : Option ℚ := f32Round (a + b)
def f32Sub (a b : ℚ) : Option ℚ := f32Round (a - b)
def f32Mul (a b : ℚ) : Option ℚ := f32Round (a * b)
def f32Div (a b : ℚ) : Option ℚ := if b = 0 then none else f32Round (a / b)

/-- Conversion of an `unsigned int` to `float`. -/
def f32OfNat (n : Nat) : Option ℚ := f32Round (n : ℚ)

/-- Conversion of an `int` to `float`. -/
def f32OfInt (z : Int) : Option ℚ := f32Round (z : ℚ)

/-- Conversion `static_cast<sf::Uint8>` of a float: truncation; undefined (`none`) when the
truncated value is not an 8-bit value. -/
def toUint8 (x : ℚ) : Option (Fin 256) :=
  if h : 0 ≤ truncToInt x ∧ truncToInt x < 256 then
    some ⟨(truncToInt x).toNat, by omega⟩
  else none

/-- The channel overload: `static_cast<sf::Uint8> (start * (1.f - alpha) + end * alpha)`. -/
def linearInterpolation (start end_ : Fin 256) (alpha : ℚ) : Option (Fin 256) :=
  (f32Sub 1 alpha).bind fun oneMinus =>
  (f32Mul (start.val : ℚ) oneMinus).bind fun lhs =>
  (f32Mul (end_.val : ℚ) alpha).bind fun rhs =>
  (f32Add lhs rhs).bind toUint8

structure Color where
  r : Fin 256
  g : Fin 256
  b : Fin 256
  a : Fin 256
deriving DecidableEq

/-- The colour overload of `linearInterpolation`. -/
def linearInterpolationColor (start end_ : Color) (alpha : ℚ) : Option Color :=
  (linearInterpolation start.r end_.r alpha).bind fun r =>
  (linearInterpolation start.g end_.g alpha).bind fun g =>
  (linearInterpolation start.b end_.b alpha).bind fun b =>
  (linearInterpolation start.a end_.a alpha).bind fun a =>
  some ⟨r, g, b, a⟩

/-- The constant `sf::Color::White`. -/
def headColor : Color := ⟨255, 255, 255, 255⟩
/-- The constant `sf::Color (0, 153, 0)`, whose alpha defaults to 255. -/
def baseColor : Color := ⟨0, 153, 0, 255⟩
/-- The constant `sf::Color::Black`. -/
def backgroundColor : Color := ⟨0, 0, 0, 255⟩

/-! ## Strip (lines 106-173) -/

structure Vector2u where
  x : Nat
  y : Nat
deriving DecidableEq

structure Strip where
  x : Nat
  y : ℚ
  length : Nat
  speed : ℚ
  headNeedsUpdating : Bool
  max : Vector2u
  m_head : Int
deriving DecidableEq

/-- The vector `strips` as a member function of `me` sees it: when `me` is its element of
index `i`, that element is `me` as it is now. -/
def view (strips : List Strip) (self : Option Nat) (me : Strip) : List Strip :=
  match self with
  | none => strips
  | some i => strips.set i me

/-- The right-hand side of the position test of line 167,
`strip.y - strip.length - tailExtensionLength`: both unsigned values are converted to
`float` and both subtractions are rounded. -/
def tailEnd (strip : Strip) : Option ℚ :=
  (f32OfNat strip.length).bind fun len =>
  (f32Sub strip.y len).bind fun above =>
  (f32OfNat tailExtensionLength).bind fun ext => f32Sub above ext

/-- The test of line 167; `&&` and `||` evaluate their right operand only when it decides. -/
def conflicts (column : Nat) (speed y : ℚ) (strip : Strip) : Option Bool :=
  if column = strip.x then
    if speed ≥ strip.speed then some true
    else (tailEnd strip).bind fun limit => some (decide (y ≥ limit))
  else some false

/-- The `for` loop of lines 165-169 on the strips still to visit, `taken` being the value
of `columnTaken` so far. -/
def columnTakenFrom (column : Nat) (speed y : ℚ) : Bool → List Strip → Option Bool
  | taken, [] => some taken
  | taken, strip :: rest =>
    (conflicts column speed y strip).bind fun c =>
      columnTakenFrom column speed y (if c then true else taken) rest

/-- The lines 164-169: the value of `columnTaken` after the `for` loop. -/
def columnTaken (strips : List Strip) (column : Nat) (speed y : ℚ) : Option Bool :=
  columnTakenFrom column speed y false strips

/-- The `while (columnTaken)` loop of lines 160-170; returns the strip, whose `speed` is
assigned by every iteration, and the local `column`. -/
def spawnLoop (strips : List Strip) (self : Option Nat) :
    Nat → Strip → Rng → Option (Strip × Nat × Rng)
  | 0, _, _ => none
  | fuel + 1, me, g =>
    (randomValueFloat minStripSpeed maxStripSpeed g).bind fun r1 =>
    (randomValue 0 me.max.x r1.2).bind fun r2 =>
      let me1 : Strip := { me with speed := r1.1 }
      (columnTaken (view strips self me1) r2.1 me1.speed me1.y).bind fun taken =>
        if taken then spawnLoop strips self fuel me1 r2.2
        else some (me1, r2.1, r2.2)

/-- The position of line 154, `head - 1.f`: `head` is converted to `float`. -/
def startAt (head : Int) : Option ℚ :=
  (f32OfInt head).bind fun h => f32Sub h 1

/-- The position of line 157, `-1.f - randomValue (0u, max.y)`: the draw is converted to
`float`. -/
def startAbove (draw : Nat) : Option ℚ :=
  (f32OfNat draw).bind fun d => f32Sub (-1) d

/-- The lines 150-157 of `priv_spawn`: the length and the starting position. -/
def spawnStart (me : Strip) (head : Int) (g : Rng) : Option (Strip × Rng) :=
  (randomValue minStripLength maxStripLength g).bind fun r1 =>
    let me1 : Strip := { me with length := r1.1 }
    if head < 0 then
      (startAt head).bind fun y => some ({ me1 with m_head := head, y := y }, r1.2)
    else
      (randomValue 0 me1.max.y r1.2).bind fun r2 =>
      (startAbove r2.1).bind fun y => some ({ me1 with y := y }, r2.2)

def priv_spawn (strips : List Strip) (self : Option Nat) (me : Strip) (head : Int) (g : Rng) :
    Option (Strip × Rng) :=
  (spawnStart me head g).bind fun r1 =>
  (spawnLoop strips self r1.2.ints.length r1.1 r1.2).bind fun r2 =>
    some ({ r2.1 with x := r2.2.1 }, r2.2.2)

def priv_updateHead (me : Strip) : Option Strip :=
  (floatToInt me.y).bind fun newHead =>
    some { me with headNeedsUpdating := decide (newHead ≠ me.m_head), m_head := newHead }

/-- The position after line 126, `y += speed * dt`: the product is rounded, then the sum. -/
def advance (me : Strip) (dt : ℚ) : Option ℚ :=
  (f32Mul me.speed dt).bind fun step => f32Add me.y step

/-- The test of line 127, `y > static_cast<float> (max.y + length + 1)`, on the strip whose
`y` has been advanced: the sum is an `unsigned int`, converted to `float`. -/
def pastBottom (me : Strip) : Option Bool :=
  (f32OfNat (uadd (uadd me.max.y me.length) 1)).bind fun limit => some (decide (me.y > limit))

def update (strips : List Strip) (self : Option Nat) (me : Strip) (dt : ℚ) (g : Rng) :
    Option (Strip × Rng) :=
  (advance me dt).bind fun y =>
    let me1 : Strip := { me with y := y }
    (pastBottom me1).bind fun past =>
    (if past then priv_spawn strips self me1 0 g else some (me1, g)).bind fun r =>
    (priv_updateHead r.1).bind fun me2 => some (me2, r.2)

def getHeadPosition (me : Strip) : (Int × Int) × Strip :=
  ((toInt32 me.x, me.m_head), { me with headNeedsUpdating := false })

/-- The constructor: `max`, `m_head` and `headNeedsUpdating` are initialised, the other
members are assigned by `priv_spawn` before they are read. -/
def Strip.new (strips : List Strip) (newMax : Vector2u) (head : Int) (g : Rng) :
    Option (Strip × Rng) :=
  priv_spawn strips none
    { x := 0, y := 0, length := 0, speed := 0, headNeedsUpdating := false, max := newMax,
      m_head := -1 } head g

/-! ## Rendering (lines 99-102 and 175-230) -/

structure Spinner where
  row : Nat
  strip : Nat
deriving DecidableEq

/-- The loop iteration that streams a cell into the console screen. -/
inductive Source where
  | strip (i : Nat)
  | spinner (k : Nat)
deriving DecidableEq

/-- One cell streamed into the console screen: its location, and the glyph and the
foreground colour given to it, if any. -/
structure CellWrite where
  source : Source
  column : Int
  row : Int
  glyph : Option Nat
  color : Option Color
deriving DecidableEq

def isValidRow (mode : Vector2u) (row : Int) : Bool :=
  !(decide (row < 0) || decide (row ≥ toInt32 mode.y))

/-- Sequential composition of the iterations of a `for` loop that streams cells. -/
def collect (body : Nat → Option (List CellWrite)) : List Nat → Option (List CellWrite)
  | [] => some []
  | y :: ys =>
    (body y).bind fun w => (collect body ys).bind fun ws => some (w ++ ws)

/-- The head cell, line 189-190. -/
def headCell (mode : Vector2u) (i : Nat) (hp : Int × Int) (g : Rng) :
    Option (List CellWrite × Rng) :=
  if isValidRow mode hp.2 then
    (getRandomChar g).bind fun r => some ([⟨.strip i, hp.1, hp.2, some r.1, some headColor⟩], r.2)
  else some ([], g)

/-- The body of the loop of lines 192-199. -/
def headFadeCell (mode : Vector2u) (i : Nat) (hp : Int × Int) (y : Nat) :
    Option (List CellWrite) :=
  (f32Div (y : ℚ) (headLength : ℚ)).bind fun ratio =>
    let targetRow : Int := hp.2 - toInt32 y
    if !isValidRow mode targetRow then some []
    else
      (linearInterpolationColor headColor baseColor ratio).bind fun c =>
        some [⟨.strip i, hp.1, targetRow, none, some c⟩]

/-- The body of the loop of lines 200-207. -/
def tailFadeCell (mode : Vector2u) (i : Nat) (hp : Int × Int) (length : Nat) (y : Nat) :
    Option (List CellWrite) :=
  (f32Div (y : ℚ) (tailLength : ℚ)).bind fun ratio =>
    let targetRow : Int := hp.2 - toInt32 (usub length y)
    if !isValidRow mode targetRow then some []
    else
      (linearInterpolationColor backgroundColor baseColor ratio).bind fun c =>
        some [⟨.strip i, hp.1, targetRow, none, some c⟩]

/-- The body of the loop of lines 208-214. -/
def tailEraseCell (mode : Vector2u) (i : Nat) (hp : Int × Int) (length : Nat) (y : Nat) :
    Option (List CellWrite) :=
  let targetRow : Int := hp.2 - toInt32 (uadd length y)
  if !isValidRow mode targetRow then some []
  else some [⟨.strip i, hp.1, targetRow, none, some backgroundColor⟩]

/-- The body of the loop of lines 183-216, for the strip of index `i`. -/
def drawStrip (mode : Vector2u) (i : Nat) (strip : Strip) (g : Rng) :
    Option (Strip × List CellWrite × Rng) :=
  if strip.headNeedsUpdating then
    let hp := getHeadPosition strip
    (headCell mode i hp.1 g).bind fun r =>
    (collect (headFadeCell mode i hp.1) (List.range' 1 headLength)).bind fun w1 =>
    (collect (tailFadeCell mode i hp.1 hp.2.length) (List.range tailLength)).bind fun w2 =>
    (collect (tailEraseCell mode i hp.1 hp.2.length) (List.range tailExtensionLength)).bind
      fun w3 => some (hp.2, r.1 ++ w1 ++ w2 ++ w3, r.2)
  else some (strip, [], g)

/-- The loop of lines 183-216 from the strip of index `i` on. -/
def drawStrips (mode : Vector2u) : Nat → List Strip → Rng →
    Option (List Strip × List CellWrite × Rng)
  | _, [], g => some ([], [], g)
  | i, s :: ss, g =>
    (drawStrip mode i s g).bind fun r1 =>
    (drawStrips mode (i + 1) ss r1.2.2).bind fun r2 =>
      some (r1.1 :: r2.1, r1.2.1 ++ r2.2.1, r2.2.2)

/-- The body of the loop of lines 218-228, for the spinner of index `k`; indexing `strips`
out of its bounds is undefined (`none`). -/
def spinStep (mode : Vector2u) (strips : List Strip) (k : Nat) (spinner : Spinner) (g : Rng) :
    Option (List Strip × Spinner × List CellWrite × Rng) :=
  match strips[spinner.strip]? with
  | none => none
  | some currentStrip =>
    let hp1 := getHeadPosition currentStrip
    let strips1 := strips.set spinner.strip hp1.2
    if toInt32 spinner.row < hp1.1.2 - toInt32 currentStrip.length then
      (randomValue 0 (usub strips.length 1) g).bind fun r1 =>
      (randomValue 0 (usub mode.y 1) r1.2).bind fun r2 =>
        some (strips1, ⟨r2.1, r1.1⟩, [], r2.2)
    else
      let hp2 := getHeadPosition hp1.2
      if toInt32 spinner.row < hp2.1.2 then
        (getRandomChar g).bind fun r =>
          some (strips1, spinner,
            [⟨.spinner k, (currentStrip.x : Int), (spinner.row : Int), some r.1, none⟩], r.2)
      else some (strips1, spinner, [], g)

/-- The loop of lines 218-228 from the spinner of index `k` on. -/
def spinAll (mode : Vector2u) : Nat → List Strip → List Spinner → Rng →
    Option (List Strip × List Spinner × List CellWrite × Rng)
  | _, strips, [], g => some (strips, [], [], g)
  | k, strips, sp :: sps, g =>
    (spinStep mode strips k sp g).bind fun r1 =>
    (spinAll mode (k + 1) r1.1 sps r1.2.2.2).bind fun r2 =>
      some (r2.1, r1.2.1 :: r2.2.1, r1.2.2.1 ++ r2.2.2.1, r2.2.2.2)

def updateConsoleScreen (mode : Vector2u) (strips : List Strip) (spinners : List Spinner)
    (g : Rng) : Option (List Strip × List Spinner × List CellWrite × Rng) :=
  (drawStrips mode 0 strips g).bind fun r1 =>
  (spinAll mode 0 r1.1 spinners r1.2.2).bind fun r2 =>
    some (r2.1, r2.2.1, r1.2.1 ++ r2.2.2.1, r2.2.2.2)

/-! ## The program (lines 232-327) -/

/-- The mode given to the console screen, line 258. -/
def mode : Vector2u := ⟨74, 50⟩

structure World where
  strips : List Strip
  spinners : List Spinner
deriving DecidableEq

/-- The loop of lines 275-276: `n` strips to go, `stripHeadStart` so far. -/
def buildStrips : Nat → Nat → List Strip → Rng → Option (List Strip × Rng)
  | 0, _, strips, g => some (strips, g)
  | n + 1, stripHeadStart, strips, g =>
    let stripHeadStart1 := uadd stripHeadStart 3
    (Strip.new strips ⟨usub mode.x 1, usub mode.y 1⟩
        (toInt32 (usub (2 ^ 32 - 1) stripHeadStart1)) g).bind fun r =>
      buildStrips n stripHeadStart1 (strips ++ [r.1]) r.2

/-- The loop of lines 280-284: `n` spinners to go. -/
def buildSpinners (strips : List Strip) : Nat → Rng → Option (List Spinner × Rng)
  | 0, g => some ([], g)
  | n + 1, g =>
    (randomValue 0 (usub mode.y 1) g).bind fun r1 =>
    (randomValue 0 (usub strips.length 1) r1.2).bind fun r2 =>
    (buildSpinners strips n r2.2).bind fun r3 =>
      some (⟨r1.1, r2.1⟩ :: r3.1, r3.2)

/-- The lines 273-284 of `main`. -/
def populate (g : Rng) : Option (World × Rng) :=
  (buildStrips numberOfStrips 0 [] g).bind fun r1 =>
  (buildSpinners r1.1 numberOfSpinners r1.2).bind fun r2 =>
    some (⟨r1.1, r2.1⟩, r2.2)

/-- The loop of lines 315-316 from the strip of index `i` on, `n` strips to go. -/
def updateFrom (dt : ℚ) : Nat → Nat → List Strip → Rng → Option (List Strip × Rng)
  | 0, _, strips, g => some (strips, g)
  | n + 1, i, strips, g =>
    match strips[i]? with
    | none => some (strips, g)
    | some me =>
      (update strips (some i) me dt g).bind fun r =>
        updateFrom dt n (i + 1) (strips.set i r.1) r.2

def updateStrips (dt : ℚ) (strips : List Strip) (g : Rng) : Option (List Strip × Rng) :=
  updateFrom dt strips.length 0 strips g

/-- One turn of the loop of line 289: the lines 315-318. -/
def frame (dt : ℚ) (w : World) (g : Rng) : Option (World × List CellWrite × Rng) :=
  (updateStrips dt w.strips g).bind fun r1 =>
  (updateConsoleScreen mode r1.1 w.spinners r1.2).bind fun r2 =>
    some (⟨r2.1, r2.2.1⟩, r2.2.2.1, r2.2.2.2)

/-- The frames whose times are `dts`, and all the cells they stream. -/
def runFrames : List ℚ → World → Rng → Option (World × List CellWrite × Rng)
  | [], w, g => some (w, [], g)
  | dt :: dts, w, g =>
    (frame dt w g).bind fun r1 =>
    (runFrames dts r1.1 r1.2.2).bind fun r2 =>
      some (r2.1, r1.2.1 ++ r2.2.1, r2.2.2)

/-- The program from line 273 on, run for the frames whose times are `dts`. -/
def program (dts : List ℚ) (g : Rng) : Option (World × List CellWrite × Rng) :=
  (populate g).bind fun r => runFrames dts r.1 r.2

/-! ## Predicates of the statements -/

/-- The strip with its flag `headNeedsUpdating` cleared: what rendering leaves of a strip. -/
def clearFlag (s : Strip) : Strip := { s with headNeedsUpdating := false }

/-- The row of the spinner is above the tail of the strip it refers to: the test of
line 221, on integers. -/
def aboveTail (strips : List Strip) (sp : Spinner) : Prop :=
  ∃ st, strips[sp.strip]? = some st ∧ (sp.row : Int) < st.m_head - (st.length : Int)

/-- The strip index and the row of the spinner are the outcomes of the two draws of lines
223-224, made one after the other from the generator in the state `g`, `n` being
`strips.size ()`. -/
def DrawnFrom (m : Vector2u) (n : Nat) (g : Rng) (sp : Spinner) : Prop :=
  ∃ gb gc : Rng, randomValue 0 (usub n 1) g = some (sp.strip, gb) ∧
    randomValue 0 (usub m.y 1) gb = some (sp.row, gc)

/-- The strip index and the row of `sp1` are the two draws that the iteration of index `k`
of the spinner loop makes in the call `updateConsoleScreen m strips sps g`: they are drawn
from the generator in the state that the strip loop and the `k` iterations before it leave
it in. -/
def SpinnerDraws (m : Vector2u) (strips : List Strip) (sps : List Spinner) (g : Rng) (k : Nat)
    (sp1 : Spinner) : Prop :=
  ∃ (stripsA : List Strip) (wsA : List CellWrite) (gA : Rng) (stripsB : List Strip)
    (spsB : List Spinner) (wsB : List CellWrite) (ga : Rng),
    drawStrips m 0 strips g = some (stripsA, wsA, gA) ∧
      spinAll m 0 stripsA (sps.take k) gA = some (stripsB, spsB, wsB, ga) ∧
      DrawnFrom m strips.length ga sp1

/-- The strip is one of the grid of `main`: its maximum is `(73, 49)` and its column is in
`[0, 73]`. -/
def StripOk (s : Strip) : Prop := s.max = ⟨73, 49⟩ ∧ s.x ≤ 73

/-- The population of `main`: 74 strips of the grid, and spinners whose row is in `[0, 49]`
and whose strip index is in `[0, 73]`. -/
def WorldOk (w : World) : Prop :=
  (∀ s ∈ w.strips, StripOk s) ∧ w.strips.length = numberOfStrips ∧
    ∀ sp ∈ w.spinners, sp.row ≤ 49 ∧ sp.strip ≤ 73

/-- The cell is one of the grid of 74 columns and 50 rows. -/
def InGrid (c : CellWrite) : Prop := 0 ≤ c.column ∧ c.column ≤ 73 ∧ 0 ≤ c.row ∧ c.row < 50

/-- The cell is streamed by the strip of index `i`, in the column given and in a row the
screen has. -/
def StripCell (m : Vector2u) (i : Nat) (column : Int) (c : CellWrite) : Prop :=
  c.source = .strip i ∧ c.column = column ∧ 0 ≤ c.row ∧ c.row < toInt32 m.y

/-- An oracle for one run of the program: strip `i` is given the length 10 and the column
`i`, strip 0 the speed 50 and the others the speed 10; every other integer drawn is 1. -/
def sampleRng : Rng :=
  ⟨(List.range 74).foldr (fun i l => 10 :: i :: l) (List.replicate 256 1),
    50 :: List.replicate 73 10⟩

/-- Channel `y`, blended later than channel `x`, is no nearer to `start` than `x` is, up
to one unit. -/
def TowardsWithinOne (start end_ x y : Fin 256) : Prop :=
  (start ≤ end_ → x.val ≤ y.val + 1) ∧ (end_ ≤ start → y.val ≤ x.val + 1)

/-! ## The random source: lemmas -/

theorem randomValue_eq_some {min max : Nat} {g : Rng} {d : Nat} {g1 : Rng}
    (h : randomValue min max g = some (d, g1)) :
    min < max ∧ min ≤ d ∧ d ≤ max ∧ g.ints = d :: g1.ints ∧ g1.floats = g.floats := by
  unfold randomValue at h
  split at h
  · exact absurd h (by simp)
  · rename_i d0 ds hg
    split at h
    · rename_i hc
      simp only [Option.some.injEq, Prod.mk.injEq] at h
      obtain ⟨h1, h2⟩ := h
      subst h1 h2
      exact ⟨hc.1, hc.2.1, hc.2.2, hg, rfl⟩
    · exact absurd h (by simp)

theorem randomValueFloat_eq_some {min max : ℚ} {g : Rng} {d : ℚ} {g1 : Rng}
    (h : randomValueFloat min max g = some (d, g1)) :
    min < max ∧ min ≤ d ∧ d ≤ max ∧ g.floats = d :: g1.floats ∧ g1.ints = g.ints := by
  unfold randomValueFloat at h
  split at h
  · exact absurd h (by simp)
  · rename_i d0 ds hg
    split at h
    · rename_i hc
      simp only [Option.some.injEq, Prod.mk.injEq] at h
      obtain ⟨h1, h2⟩ := h
      subst h1 h2
      exact ⟨hc.1, hc.2.1, hc.2.2, hg, rfl⟩
    · exact absurd h (by simp)

theorem getRandomCharLoop_eq_some (fuel : Nat) :
    ∀ (g : Rng) (c : Nat) (g1 : Rng), getRandomCharLoop fuel 19 g = some (c, g1) →
      c ≤ 54 ∧ c ≠ 19 ∧ g1.floats = g.floats ∧
        ∃ n, g.ints = List.replicate n 19 ++ c :: g1.ints := by
  induction fuel with
  | zero => intro g c g1 h; simp [getRandomCharLoop] at h
  | succ fuel ih =>
    intro g c g1 h
    simp only [getRandomCharLoop, if_true] at h
    cases hr : randomValue 0 54 g with
    | none => simp [hr] at h
    | some r =>
      obtain ⟨d, g2⟩ := r
      have hd := randomValue_eq_some hr
      simp only [hr, Option.some_bind] at h
      by_cases hd19 : d = 19
      · subst hd19
        obtain ⟨h1, h2, h3, n, h4⟩ := ih g2 c g1 h
        refine ⟨h1, h2, h3.trans hd.2.2.2.2, n + 1, ?_⟩
        rw [hd.2.2.2.1, h4]
        rfl
      · cases fuel with
        | zero => simp [getRandomCharLoop] at h
        | succ fuel =>
          simp only [getRandomCharLoop, hd19, if_false, Option.some.injEq, Prod.mk.injEq] at h
          obtain ⟨h1, h2⟩ := h
          subst h1 h2
          exact ⟨hd.2.2.1, hd19, hd.2.2.2.2, 0, by simpa using hd.2.2.2.1⟩

theorem getRandomCharLoop_replicate (n : Nat) :
    ∀ (fuel c : Nat) (rest : List Nat) (fl : List ℚ), n + 2 ≤ fuel → c ≤ 54 → c ≠ 19 →
      getRandomCharLoop fuel 19 ⟨List.replicate n 19 ++ c :: rest, fl⟩ = some (c, ⟨rest, fl⟩) := by
  induction n with
  | zero =>
    intro fuel c rest fl hf hc hc19
    obtain ⟨f, rfl⟩ : ∃ f, fuel = f + 2 := ⟨fuel - 2, by omega⟩
    simp [getRandomCharLoop, randomValue, hc, hc19]
  | succ n ih =>
    intro fuel c rest fl hf hc hc19
    obtain ⟨f, rfl⟩ : ∃ f, fuel = f + 1 := ⟨fuel - 1, by omega⟩
    have := ih f c rest fl (by omega) hc hc19
    simp only [getRandomCharLoop, if_true, randomValue, List.replicate_succ, List.cons_append]
    simpa using this

theorem getRandomChar_replicate (n c : Nat) (rest : List Nat) (fl : List ℚ) (hc : c ≤ 54)
    (hc19 : c ≠ 19) :
    getRandomChar ⟨List.replicate n 19 ++ c :: rest, fl⟩ = some (c, ⟨rest, fl⟩) := by
  unfold getRandomChar
  exact getRandomCharLoop_replicate n _ c rest fl (by simp) hc hc19

/-! ## Binary32 rounding: lemmas -/

theorem roundHalfEven_sub_le (s : ℚ) : |(roundHalfEven s : ℚ) - s| ≤ 1 / 2 := by
  have h1 : (⌊s⌋ : ℚ) ≤ s := Int.floor_le s
  have h2 : s < (⌊s⌋ : ℚ) + 1 := Int.lt_floor_add_one s
  unfold roundHalfEven
  simp only
  rw [abs_le]
  split_ifs with c1 c2 c3
  · constructor <;> linarith
  · push_cast; constructor <;> linarith
  · constructor <;> linarith
  · push_cast; constructor <;> linarith

theorem roundHalfEven_nonneg {s : ℚ} (hs : 0 ≤ s) : 0 ≤ roundHalfEven s := by
  have h1 : 0 ≤ ⌊s⌋ := Int.floor_nonneg.2 hs
  unfold roundHalfEven
  simp only
  split_ifs <;> omega

theorem roundHalfEven_intCast (n : Int) : roundHalfEven (n : ℚ) = n := by
  unfold roundHalfEven
  simp

theorem roundHalfEven_ge {s : ℚ} {k : Int} (h : (k : ℚ) ≤ s) : k ≤ roundHalfEven s := by
  have h1 : k ≤ ⌊s⌋ := Int.le_floor.2 h
  unfold roundHalfEven
  simp only
  split_ifs <;> omega

theorem roundHalfEven_le {s : ℚ} {k : Int} (h : s ≤ (k : ℚ)) : roundHalfEven s ≤ k := by
  have h1 : (⌊s⌋ : ℚ) ≤ s := Int.floor_le s
  have h2 : ⌊s⌋ ≤ k := by
    have : (⌊s⌋ : ℚ) ≤ (k : ℚ) := le_trans h1 h
    exact_mod_cast this
  have h3 : 0 < s - (⌊s⌋ : ℚ) → ⌊s⌋ + 1 ≤ k := by
    intro hpos
    have : (⌊s⌋ : ℚ) < (k : ℚ) := by linarith
    have : ⌊s⌋ < k := by exact_mod_cast this
    omega
  unfold roundHalfEven
  simp only
  split_ifs with c1 c2 c3
  · exact h2
  · exact h3 (by linarith)
  · exact h2
  · exact h3 (by linarith)

theorem log2Fuel_eq_log (fuel : Nat) :
    ∀ n : Nat, n ≤ fuel → log2Fuel fuel n = Nat.log 2 n := by
  induction fuel with
  | zero =>
    intro n hn
    have : n = 0 := by omega
    subst this
    simp [log2Fuel]
  | succ fuel ih =>
    intro n hn
    simp only [log2Fuel]
    split_ifs with h2
    · exact (Nat.log_of_lt h2).symm
    · rw [Nat.log_of_one_lt_of_le (by norm_num) (by omega), ih (n / 2) (by omega)]

theorem zpow_bounds_of_log (n : Nat) (hn : n ≠ 0) :
    (2 : ℚ) ^ ((Nat.log 2 n : Nat) : Int) ≤ (n : ℚ) ∧
      (n : ℚ) < (2 : ℚ) ^ (((Nat.log 2 n : Nat) : Int) + 1) := by
  have h1 : 2 ^ Nat.log 2 n ≤ n := Nat.pow_log_le_self 2 hn
  have h2 : n < 2 ^ (Nat.log 2 n).succ := Nat.lt_pow_succ_log_self (by norm_num) n
  constructor
  · rw [zpow_natCast]
    exact_mod_cast h1
  · have e : ((Nat.log 2 n : Nat) : Int) + 1 = (((Nat.log 2 n).succ : Nat) : Int) := by
      push_cast; ring
    rw [e, zpow_natCast]
    exact_mod_cast h2

theorem div_zpow_bounds (n d : Nat) (hn : n ≠ 0) (hd : d ≠ 0) :
    (2 : ℚ) ^ (((Nat.log 2 n : Nat) : Int) - ((Nat.log 2 d : Nat) : Int) - 1)
        ≤ (n : ℚ) / (d : ℚ) ∧
      (n : ℚ) / (d : ℚ)
        < (2 : ℚ) ^ (((Nat.log 2 n : Nat) : Int) - ((Nat.log 2 d : Nat) : Int) + 1) := by
  obtain ⟨a1, a2⟩ := zpow_bounds_of_log n hn
  obtain ⟨b1, b2⟩ := zpow_bounds_of_log d hd
  have hdpos : (0 : ℚ) < (d : ℚ) := by exact_mod_cast Nat.pos_of_ne_zero hd
  have hb1pos : (0 : ℚ) < (2 : ℚ) ^ ((Nat.log 2 d : Nat) : Int) := zpow_pos (by norm_num) _
  have hb2pos : (0 : ℚ) < (2 : ℚ) ^ (((Nat.log 2 d : Nat) : Int) + 1) := zpow_pos (by norm_num) _
  constructor
  · have e : ((Nat.log 2 n : Nat) : Int) - ((Nat.log 2 d : Nat) : Int) - 1
        = ((Nat.log 2 n : Nat) : Int) - (((Nat.log 2 d : Nat) : Int) + 1) := by ring
    rw [e, zpow_sub₀ (by norm_num), div_le_div_iff₀ hb2pos hdpos]
    calc (2 : ℚ) ^ ((Nat.log 2 n : Nat) : Int) * (d : ℚ)
        ≤ (n : ℚ) * (d : ℚ) := mul_le_mul_of_nonneg_right a1 hdpos.le
      _ ≤ (n : ℚ) * (2 : ℚ) ^ (((Nat.log 2 d : Nat) : Int) + 1) :=
          mul_le_mul_of_nonneg_left b2.le (Nat.cast_nonneg _)
  · have e : ((Nat.log 2 n : Nat) : Int) - ((Nat.log 2 d : Nat) : Int) + 1
        = (((Nat.log 2 n : Nat) : Int) + 1) - ((Nat.log 2 d : Nat) : Int) := by ring
    rw [e, zpow_sub₀ (by norm_num), div_lt_div_iff₀ hdpos hb1pos]
    calc (n : ℚ) * (2 : ℚ) ^ ((Nat.log 2 d : Nat) : Int)
        ≤ (n : ℚ) * (d : ℚ) := mul_le_mul_of_nonneg_left b1 (Nat.cast_nonneg _)
      _ < (2 : ℚ) ^ (((Nat.log 2 n : Nat) : Int) + 1) * (d : ℚ) :=
          mul_lt_mul_of_pos_right a2 hdpos

theorem floorLog2_eq_log (x : ℚ) : floorLog2 x = Int.log 2 x := by
  by_cases h0 : x ≤ 0
  · rw [floorLog2, if_pos h0]
    exact (Int.log_of_right_le_zero 2 h0).symm
  · have hx : 0 < x := not_le.1 h0
    have hnum : 0 < x.num := Rat.num_pos.2 hx
    have hn0 : x.num.natAbs ≠ 0 := by omega
    have hd0 : x.den ≠ 0 := x.den_nz
    have hc : ((x.num.natAbs : Nat) : ℚ) = (x.num : ℚ) := by
      have h1 : ((x.num.natAbs : Nat) : Int) = x.num := Int.natAbs_of_nonneg hnum.le
      calc ((x.num.natAbs : Nat) : ℚ) = (((x.num.natAbs : Nat) : Int) : ℚ) :=
            (Int.cast_natCast _).symm
        _ = (x.num : ℚ) := by rw [h1]
    have hxe : (x.num.natAbs : ℚ) / (x.den : ℚ) = x := by
      rw [hc]
      exact Rat.num_div_den x
    obtain ⟨lo, up⟩ := div_zpow_bounds _ _ hn0 hd0
    rw [hxe] at lo up
    have two : (((2 : Nat) : ℚ)) = 2 := by norm_num
    rw [floorLog2, if_neg h0]
    simp only [log2Fuel_eq_log _ _ (le_refl _)]
    split_ifs with h1
    · apply le_antisymm
      · exact (Int.zpow_le_iff_le_log (b := 2) (by norm_num) hx).1 (by rw [two]; exact h1)
      · have := (Int.lt_zpow_iff_log_lt (b := 2) (by norm_num) hx).1 (by rw [two]; exact up)
        omega
    · apply le_antisymm
      · exact (Int.zpow_le_iff_le_log (b := 2) (by norm_num) hx).1 (by rw [two]; exact lo)
      · have := (Int.lt_zpow_iff_log_lt (b := 2) (by norm_num) hx).1
          (by rw [two]; exact not_le.1 h1)
        omega

theorem f32Quantum_eq_log (x : ℚ) : f32Quantum x = max (Int.log 2 |x| - 23) (-149) := by
  unfold f32Quantum
  rw [floorLog2_eq_log]

theorem f32Nearest_sub_le {x : ℚ} : |f32Nearest x - x| ≤ (2 : ℚ) ^ f32Quantum x / 2 := by
  have hq : (0 : ℚ) < (2 : ℚ) ^ f32Quantum x := zpow_pos (by norm_num) _
  unfold f32Nearest
  split_ifs with h0
  · subst h0
    simp only [sub_self, abs_zero]
    positivity
  · have h := roundHalfEven_sub_le (x / (2 : ℚ) ^ f32Quantum x)
    have e : (roundHalfEven (x / (2 : ℚ) ^ f32Quantum x) : ℚ) * (2 : ℚ) ^ f32Quantum x - x
        = ((roundHalfEven (x / (2 : ℚ) ^ f32Quantum x) : ℚ) - x / (2 : ℚ) ^ f32Quantum x)
          * (2 : ℚ) ^ f32Quantum x := by
      field_simp
    rw [e, abs_mul, abs_of_pos hq]
    calc |(roundHalfEven (x / (2 : ℚ) ^ f32Quantum x) : ℚ) - x / (2 : ℚ) ^ f32Quantum x|
          * (2 : ℚ) ^ f32Quantum x
        ≤ 1 / 2 * (2 : ℚ) ^ f32Quantum x := mul_le_mul_of_nonneg_right h hq.le
      _ = (2 : ℚ) ^ f32Quantum x / 2 := by ring

theorem f32Nearest_nonneg {x : ℚ} (hx : 0 ≤ x) : 0 ≤ f32Nearest x := by
  have hq : (0 : ℚ) < (2 : ℚ) ^ f32Quantum x := zpow_pos (by norm_num) _
  unfold f32Nearest
  split_ifs with h0
  · exact le_refl 0
  · have : 0 ≤ roundHalfEven (x / (2 : ℚ) ^ f32Quantum x) :=
      roundHalfEven_nonneg (div_nonneg hx hq.le)
    have h2 : (0 : ℚ) ≤ (roundHalfEven (x / (2 : ℚ) ^ f32Quantum x) : ℚ) := by exact_mod_cast this
    exact mul_nonneg h2 hq.le

theorem f32Quantum_le {x : ℚ} {k : Int} (h0 : x ≠ 0) (hx : |x| < (2 : ℚ) ^ k)
    (hk : -125 ≤ k) : f32Quantum x ≤ k - 24 := by
  rw [f32Quantum_eq_log]
  have hpos : 0 < |x| := abs_pos.2 h0
  have hx2 : |x| < ((2 : ℕ) : ℚ) ^ k := by simpa using hx
  have hlog : Int.log 2 |x| < k := (Int.lt_zpow_iff_log_lt (by norm_num) hpos).1 hx2
  omega

theorem f32Nearest_error {x : ℚ} {k : Int} (hx : |x| < (2 : ℚ) ^ k) (hk : -125 ≤ k) :
    |f32Nearest x - x| ≤ (2 : ℚ) ^ (k - 25) := by
  by_cases h0 : x = 0
  · subst h0
    simp only [f32Nearest, if_true, sub_self, abs_zero]
    positivity
  have h1 := f32Nearest_sub_le (x := x)
  have h2 : (2 : ℚ) ^ f32Quantum x ≤ (2 : ℚ) ^ (k - 24) :=
    zpow_le_zpow_right₀ (by norm_num) (f32Quantum_le h0 hx hk)
  have h3 : (2 : ℚ) ^ (k - 24) / 2 = (2 : ℚ) ^ (k - 25) := by
    have : k - 24 = (k - 25) + 1 := by ring
    rw [this, zpow_add_one₀ (by norm_num)]
    ring
  linarith

theorem f32Round_eq {x : ℚ} {k : Int} (hx : |x| < (2 : ℚ) ^ k) (hk : -125 ≤ k)
    (hk2 : k ≤ 127) : f32Round x = some (f32Nearest x) := by
  have h1 := f32Nearest_error hx hk
  have h2 : (2 : ℚ) ^ k ≤ (2 : ℚ) ^ (127 : Int) := zpow_le_zpow_right₀ (by norm_num) hk2
  have h3 : (2 : ℚ) ^ (k - 25) ≤ (2 : ℚ) ^ (127 : Int) :=
    zpow_le_zpow_right₀ (by norm_num) (by omega)
  have h4 : |f32Nearest x| ≤ |f32Nearest x - x| + |x| := by
    have := abs_add (f32Nearest x - x) x
    simpa using this
  have h5 : (2 : ℚ) ^ (127 : Int) + (2 : ℚ) ^ (127 : Int) = (2 : ℚ) ^ (128 : Nat) := by norm_num
  unfold f32Round
  rw [if_pos]
  linarith

theorem f32Nearest_natCast (n : Nat) (hn : n < 2 ^ 24) : f32Nearest (n : ℚ) = (n : ℚ) := by
  unfold f32Nearest
  split_ifs with h0
  · exact h0.symm
  · have hn0 : n ≠ 0 := fun e => h0 (by rw [e]; rfl)
    have hlog : Nat.log 2 n < 24 := Nat.log_lt_of_lt_pow hn0 hn
    have hq : f32Quantum (n : ℚ) = ((Nat.log 2 n : Nat) : Int) - 23 := by
      rw [f32Quantum_eq_log, abs_of_nonneg (Nat.cast_nonneg n), Int.log_natCast]
      omega
    obtain ⟨m, hm⟩ : ∃ m : Nat, f32Quantum (n : ℚ) = -(m : Int) :=
      ⟨23 - Nat.log 2 n, by rw [hq]; omega⟩
    rw [hm]
    have hpow : (0 : ℚ) < (2 : ℚ) ^ m := pow_pos (by norm_num) m
    have e : (n : ℚ) / (2 : ℚ) ^ (-(m : Int)) = (((n * 2 ^ m : Nat) : Int) : ℚ) := by
      rw [zpow_neg, zpow_natCast]
      push_cast
      field_simp
    rw [e, roundHalfEven_intCast, zpow_neg, zpow_natCast]
    push_cast
    field_simp

theorem f32Round_natCast (n : Nat) (hn : n < 2 ^ 24) : f32Round (n : ℚ) = some (n : ℚ) := by
  unfold f32Round
  rw [f32Nearest_natCast n hn, if_pos]
  rw [abs_of_nonneg (Nat.cast_nonneg n)]
  have h1 : (n : ℚ) < ((2 ^ 24 : Nat) : ℚ) := by exact_mod_cast hn
  have h2 : (((2 : Nat) ^ 24 : Nat) : ℚ) ≤ (2 : ℚ) ^ (128 : Nat) := by norm_num
  linarith

theorem toUint8_natCast (c : Fin 256) : toUint8 (c.val : ℚ) = some c := by
  have ht : truncToInt (c.val : ℚ) = (c.val : Int) := by
    unfold truncToInt
    rw [if_pos (Nat.cast_nonneg _)]
    exact Int.floor_natCast _
  unfold toUint8
  have hc := c.isLt
  rw [dif_pos (by rw [ht]; omega)]
  simp only [ht, Int.toNat_ofNat]

theorem linearInterpolation_zero (s e : Fin 256) : linearInterpolation s e 0 = some s := by
  have h1 : f32Round (1 : ℚ) = some 1 := by simpa using f32Round_natCast 1 (by norm_num)
  have h0 : f32Round (0 : ℚ) = some 0 := by simpa using f32Round_natCast 0 (by norm_num)
  have hs : f32Round (s.val : ℚ) = some (s.val : ℚ) := f32Round_natCast _ (by omega)
  unfold linearInterpolation f32Sub f32Mul f32Add
  simp only [sub_zero, h1, Option.some_bind, mul_one, hs, mul_zero, h0, add_zero]
  exact toUint8_natCast s

theorem linearInterpolation_one (s e : Fin 256) : linearInterpolation s e 1 = some e := by
  have h0 : f32Round (0 : ℚ) = some 0 := by simpa using f32Round_natCast 0 (by norm_num)
  have he : f32Round (e.val : ℚ) = some (e.val : ℚ) := f32Round_natCast _ (by omega)
  unfold linearInterpolation f32Sub f32Mul f32Add
  simp only [sub_self, h0, Option.some_bind, mul_zero, mul_one, he, zero_add]
  exact toUint8_natCast e

theorem toUint8_floor {r : ℚ} (h0 : 0 ≤ r) (h1 : r < 256) :
    ∃ c : Fin 256, toUint8 r = some c ∧ ((c.val : Nat) : Int) = ⌊r⌋ := by
  have ht : truncToInt r = ⌊r⌋ := by
    unfold truncToInt
    rw [if_pos h0]
  have hf0 : 0 ≤ ⌊r⌋ := Int.floor_nonneg.2 h0
  have hf1 : ⌊r⌋ < 256 := Int.floor_lt.2 (by exact_mod_cast h1)
  unfold toUint8
  rw [dif_pos (by rw [ht]; exact ⟨hf0, hf1⟩)]
  refine ⟨_, rfl, ?_⟩
  simp only [ht]
  omega

theorem linearInterpolation_value (s e : Fin 256) {a : ℚ} (h0 : 0 ≤ a) (h1 : a ≤ 1) :
    ∃ r : ℚ, linearInterpolation s e a = toUint8 r ∧ 0 ≤ r ∧
      |r - ((s.val : ℚ) * (1 - a) + (e.val : ℚ) * a)| ≤ 1 / 16384 := by
  have hs0 : (0 : ℚ) ≤ (s.val : ℚ) := Nat.cast_nonneg _
  have he0 : (0 : ℚ) ≤ (e.val : ℚ) := Nat.cast_nonneg _
  have hs1 : (s.val : ℚ) ≤ 255 := by exact_mod_cast Nat.le_of_lt_succ s.isLt
  have he1 : (e.val : ℚ) ≤ 255 := by exact_mod_cast Nat.le_of_lt_succ e.isLt
  -- `1.f - alpha`
  have p1 : (2 : ℚ) ^ (1 : Int) = 2 := by norm_num
  have q1 : (2 : ℚ) ^ ((1 : Int) - 25) = 1 / 16777216 := by norm_num [zpow_neg]
  have a1 : |1 - a| < (2 : ℚ) ^ (1 : Int) := by
    rw [p1, abs_lt]; constructor <;> linarith
  have b1 := f32Round_eq a1 (by norm_num) (by norm_num)
  have c1 := f32Nearest_error a1 (by norm_num)
  have d1 := f32Nearest_nonneg (x := 1 - a) (by linarith)
  rw [q1, abs_le] at c1
  generalize f32Nearest (1 - a) = om at b1 c1 d1
  -- `start * (1.f - alpha)`
  have p8 : (2 : ℚ) ^ (8 : Int) = 256 := by norm_num
  have q8 : (2 : ℚ) ^ ((8 : Int) - 25) = 1 / 131072 := by norm_num [zpow_neg]
  have hom : om ≤ 1 + 1 / 16777216 := by linarith
  have hsom : (s.val : ℚ) * om ≤ 255 * (1 + 1 / 16777216) :=
    mul_le_mul hs1 hom d1 (by norm_num)
  have a2 : |(s.val : ℚ) * om| < (2 : ℚ) ^ (8 : Int) := by
    rw [p8, abs_of_nonneg (mul_nonneg hs0 d1)]
    linarith
  have b2 := f32Round_eq a2 (by norm_num) (by norm_num)
  have c2 := f32Nearest_error a2 (by norm_num)
  have d2 := f32Nearest_nonneg (mul_nonneg hs0 d1)
  rw [q8, abs_le] at c2
  generalize f32Nearest ((s.val : ℚ) * om) = lhs at b2 c2 d2
  -- `end * alpha`
  have hea : (e.val : ℚ) * a ≤ 255 * 1 := mul_le_mul he1 h1 h0 (by norm_num)
  have a3 : |(e.val : ℚ) * a| < (2 : ℚ) ^ (8 : Int) := by
    rw [p8, abs_of_nonneg (mul_nonneg he0 h0)]
    linarith
  have b3 := f32Round_eq a3 (by norm_num) (by norm_num)
  have c3 := f32Nearest_error a3 (by norm_num)
  have d3 := f32Nearest_nonneg (mul_nonneg he0 h0)
  rw [q8, abs_le] at c3
  generalize f32Nearest ((e.val : ℚ) * a) = rhs at b3 c3 d3
  -- the sum
  have p9 : (2 : ℚ) ^ (9 : Int) = 512 := by norm_num
  have q9 : (2 : ℚ) ^ ((9 : Int) - 25) = 1 / 65536 := by norm_num [zpow_neg]
  have a4 : |lhs + rhs| < (2 : ℚ) ^ (9 : Int) := by
    rw [p9, abs_of_nonneg (add_nonneg d2 d3)]
    linarith
  have b4 := f32Round_eq a4 (by norm_num) (by norm_num)
  have c4 := f32Nearest_error a4 (by norm_num)
  have d4 := f32Nearest_nonneg (add_nonneg d2 d3)
  rw [q9, abs_le] at c4
  generalize f32Nearest (lhs + rhs) = r at b4 c4 d4
  refine ⟨r, ?_, d4, ?_⟩
  · unfold linearInterpolation f32Sub f32Mul f32Add
    simp only [b1, b2, b3, b4, Option.some_bind]
  · have hsc : (s.val : ℚ) * (om - (1 - a)) ≤ 255 * (1 / 16777216) := by
      have : om - (1 - a) ≤ 1 / 16777216 := by linarith
      by_cases hneg : 0 ≤ om - (1 - a)
      · exact mul_le_mul hs1 this hneg (by norm_num)
      · have : (s.val : ℚ) * (om - (1 - a)) ≤ 0 :=
          mul_nonpos_of_nonneg_of_nonpos hs0 (by linarith)
        linarith
    have hsc2 : -(255 * (1 / 16777216)) ≤ (s.val : ℚ) * (om - (1 - a)) := by
      have : -(1 / 16777216) ≤ om - (1 - a) := by linarith
      by_cases hneg : om - (1 - a) ≤ 0
      · have h5 : (s.val : ℚ) * (-(om - (1 - a))) ≤ 255 * (1 / 16777216) :=
          mul_le_mul hs1 (by linarith) (by linarith) (by norm_num)
        linarith
      · have : 0 ≤ (s.val : ℚ) * (om - (1 - a)) := mul_nonneg hs0 (by linarith)
        linarith
    rw [abs_le]
    constructor <;> linarith

theorem linearInterpolation_near_monotone (s e : Fin 256) {a b : ℚ} (h0 : 0 ≤ a)
    (hab : a ≤ b) (h1 : b ≤ 1) :
    ∃ ca cb : Fin 256, linearInterpolation s e a = some ca ∧
      linearInterpolation s e b = some cb ∧
      (s ≤ e → ca.val ≤ cb.val + 1) ∧ (e ≤ s → cb.val ≤ ca.val + 1) := by
  have hs0 : (0 : ℚ) ≤ (s.val : ℚ) := Nat.cast_nonneg _
  have he0 : (0 : ℚ) ≤ (e.val : ℚ) := Nat.cast_nonneg _
  have hs1 : (s.val : ℚ) ≤ 255 := by exact_mod_cast Nat.le_of_lt_succ s.isLt
  have he1 : (e.val : ℚ) ≤ 255 := by exact_mod_cast Nat.le_of_lt_succ e.isLt
  obtain ⟨ra, ea, ra0, hra⟩ := linearInterpolation_value s e h0 (le_trans hab h1)
  obtain ⟨rb, eb, rb0, hrb⟩ := linearInterpolation_value s e (le_trans h0 hab) h1
  rw [abs_le] at hra hrb
  have va : (s.val : ℚ) * (1 - a) + (e.val : ℚ) * a ≤ 255 := by
    nlinarith [mul_nonneg (sub_nonneg.2 hs1) (sub_nonneg.2 (le_trans hab h1)),
      mul_nonneg (sub_nonneg.2 he1) h0]
  have vb : (s.val : ℚ) * (1 - b) + (e.val : ℚ) * b ≤ 255 := by
    nlinarith [mul_nonneg (sub_nonneg.2 hs1) (sub_nonneg.2 h1),
      mul_nonneg (sub_nonneg.2 he1) (le_trans h0 hab)]
  obtain ⟨ca, hca, fa⟩ := toUint8_floor ra0 (by linarith)
  obtain ⟨cb, hcb, fb⟩ := toUint8_floor rb0 (by linarith)
  refine ⟨ca, cb, ea.trans hca, eb.trans hcb, ?_, ?_⟩
  · intro hse
    have hse2 : (s.val : ℚ) ≤ (e.val : ℚ) := by exact_mod_cast hse
    have hv : (s.val : ℚ) * (1 - a) + (e.val : ℚ) * a
        ≤ (s.val : ℚ) * (1 - b) + (e.val : ℚ) * b := by
      nlinarith [mul_nonneg (sub_nonneg.2 hse2) (sub_nonneg.2 hab)]
    have hr : ra ≤ rb + 1 := by linarith
    have hf : ⌊ra⌋ ≤ ⌊rb⌋ + 1 := by
      have := Int.floor_le_floor hr
      rwa [Int.floor_add_one] at this
    omega
  · intro hes
    have hes2 : (e.val : ℚ) ≤ (s.val : ℚ) := by exact_mod_cast hes
    have hv : (s.val : ℚ) * (1 - b) + (e.val : ℚ) * b
        ≤ (s.val : ℚ) * (1 - a) + (e.val : ℚ) * a := by
      nlinarith [mul_nonneg (sub_nonneg.2 hes2) (sub_nonneg.2 hab)]
    have hr : rb ≤ ra + 1 := by linarith
    have hf : ⌊rb⌋ ≤ ⌊ra⌋ + 1 := by
      have := Int.floor_le_floor hr
      rwa [Int.floor_add_one] at this
    omega

theorem abs_cast_lt {m : Int} (hm : |m| < 2 ^ 24) : |(m : ℚ)| < (2 : ℚ) ^ (24 : Int) := by
  have h1 : ((|m| : Int) : ℚ) < ((2 ^ 24 : Int) : ℚ) := by exact_mod_cast hm
  rw [Int.cast_abs] at h1
  have h2 : (((2 ^ 24 : Int) : Int) : ℚ) = (2 : ℚ) ^ (24 : Int) := by norm_num
  rwa [h2] at h1

theorem f32Quantum_zpow_le {x : ℚ} (h0 : x ≠ 0) (hq : -149 < f32Quantum x) :
    (2 : ℚ) ^ (f32Quantum x + 23) ≤ |x| := by
  have hpos : 0 < |x| := abs_pos.2 h0
  have e : f32Quantum x + 23 = Int.log 2 |x| := by
    rw [f32Quantum_eq_log] at hq ⊢
    omega
  rw [e]
  have := Int.zpow_log_le_self (b := 2) (by norm_num) hpos
  simpa using this

theorem f32Nearest_ge_of_le {z : ℚ} (m e : Int) (hm : |m| < 2 ^ 24) (he : -149 ≤ e)
    (h : (m : ℚ) * (2 : ℚ) ^ e ≤ z) : (m : ℚ) * (2 : ℚ) ^ e ≤ f32Nearest z := by
  unfold f32Nearest
  split_ifs with h0
  · rw [h0] at h; exact h
  · have hqpos : (0 : ℚ) < (2 : ℚ) ^ f32Quantum z := zpow_pos (by norm_num) _
    by_cases hc : f32Quantum z ≤ e
    · obtain ⟨d, hd⟩ : ∃ d : Nat, e = f32Quantum z + d := ⟨(e - f32Quantum z).toNat, by omega⟩
      have hK : (((m * 2 ^ d : Int) : Int) : ℚ) * (2 : ℚ) ^ f32Quantum z
          = (m : ℚ) * (2 : ℚ) ^ e := by
        rw [hd, zpow_add₀ (by norm_num), zpow_natCast]
        push_cast
        ring
      have h1 : (((m * 2 ^ d : Int) : Int) : ℚ) ≤ z / (2 : ℚ) ^ f32Quantum z := by
        rw [le_div_iff₀ hqpos, hK]
        exact h
      have h2 := roundHalfEven_ge h1
      have h3 : (((m * 2 ^ d : Int) : Int) : ℚ)
          ≤ (roundHalfEven (z / (2 : ℚ) ^ f32Quantum z) : ℚ) := by exact_mod_cast h2
      rw [← hK]
      exact mul_le_mul_of_nonneg_right h3 hqpos.le
    · have hlt : e < f32Quantum z := not_le.1 hc
      have hbig := f32Quantum_zpow_le h0 (by omega)
      have hmq : |(m : ℚ)| < (2 : ℚ) ^ (24 : Int) := abs_cast_lt hm
      have hepos : (0 : ℚ) < (2 : ℚ) ^ e := zpow_pos (by norm_num) _
      have hv : |(m : ℚ) * (2 : ℚ) ^ e| < (2 : ℚ) ^ (f32Quantum z + 23) := by
        rw [abs_mul, abs_of_pos hepos]
        calc |(m : ℚ)| * (2 : ℚ) ^ e < (2 : ℚ) ^ (24 : Int) * (2 : ℚ) ^ e :=
              mul_lt_mul_of_pos_right hmq hepos
          _ = (2 : ℚ) ^ (24 + e) := (zpow_add₀ (by norm_num) _ _).symm
          _ ≤ (2 : ℚ) ^ (f32Quantum z + 23) := zpow_le_zpow_right₀ (by norm_num) (by omega)
      have hv2 := abs_lt.1 hv
      rcases lt_or_gt_of_ne h0 with hneg | hpos
      · rw [abs_of_neg hneg] at hbig
        linarith
      · rw [abs_of_pos hpos] at hbig
        have e23 : (((2 ^ 23 : Int) : Int) : ℚ) * (2 : ℚ) ^ f32Quantum z
            = (2 : ℚ) ^ (f32Quantum z + 23) := by
          rw [zpow_add₀ (by norm_num)]
          push_cast
          norm_num
          ring
        have h1 : (((2 ^ 23 : Int) : Int) : ℚ) ≤ z / (2 : ℚ) ^ f32Quantum z := by
          rw [le_div_iff₀ hqpos, e23]
          exact hbig
        have h2 := roundHalfEven_ge h1
        have h3 : (((2 ^ 23 : Int) : Int) : ℚ)
            ≤ (roundHalfEven (z / (2 : ℚ) ^ f32Quantum z) : ℚ) := by exact_mod_cast h2
        have h4 := mul_le_mul_of_nonneg_right h3 hqpos.le
        rw [e23] at h4
        linarith

theorem f32Nearest_le_of_le {z : ℚ} (m e : Int) (hm : |m| < 2 ^ 24) (he : -149 ≤ e)
    (h : z ≤ (m : ℚ) * (2 : ℚ) ^ e) : f32Nearest z ≤ (m : ℚ) * (2 : ℚ) ^ e := by
  unfold f32Nearest
  split_ifs with h0
  · rw [h0] at h; exact h
  · have hqpos : (0 : ℚ) < (2 : ℚ) ^ f32Quantum z := zpow_pos (by norm_num) _
    by_cases hc : f32Quantum z ≤ e
    · obtain ⟨d, hd⟩ : ∃ d : Nat, e = f32Quantum z + d := ⟨(e - f32Quantum z).toNat, by omega⟩
      have hK : (((m * 2 ^ d : Int) : Int) : ℚ) * (2 : ℚ) ^ f32Quantum z
          = (m : ℚ) * (2 : ℚ) ^ e := by
        rw [hd, zpow_add₀ (by norm_num), zpow_natCast]
        push_cast
        ring
      have h1 : z / (2 : ℚ) ^ f32Quantum z ≤ (((m * 2 ^ d : Int) : Int) : ℚ) := by
        rw [div_le_iff₀ hqpos, hK]
        exact h
      have h2 := roundHalfEven_le h1
      have h3 : (roundHalfEven (z / (2 : ℚ) ^ f32Quantum z) : ℚ)
          ≤ (((m * 2 ^ d : Int) : Int) : ℚ) := by exact_mod_cast h2
      rw [← hK]
      exact mul_le_mul_of_nonneg_right h3 hqpos.le
    · have hlt : e < f32Quantum z := not_le.1 hc
      have hbig := f32Quantum_zpow_le h0 (by omega)
      have hmq : |(m : ℚ)| < (2 : ℚ) ^ (24 : Int) := abs_cast_lt hm
      have hepos : (0 : ℚ) < (2 : ℚ) ^ e := zpow_pos (by norm_num) _
      have hv : |(m : ℚ) * (2 : ℚ) ^ e| < (2 : ℚ) ^ (f32Quantum z + 23) := by
        rw [abs_mul, abs_of_pos hepos]
        calc |(m : ℚ)| * (2 : ℚ) ^ e < (2 : ℚ) ^ (24 : Int) * (2 : ℚ) ^ e :=
              mul_lt_mul_of_pos_right hmq hepos
          _ = (2 : ℚ) ^ (24 + e) := (zpow_add₀ (by norm_num) _ _).symm
          _ ≤ (2 : ℚ) ^ (f32Quantum z + 23) := zpow_le_zpow_right₀ (by norm_num) (by omega)
      have hv2 := abs_lt.1 hv
      rcases lt_or_gt_of_ne h0 with hneg | hpos
      · rw [abs_of_neg hneg] at hbig
        have e23 : (((-(2 ^ 23) : Int) : Int) : ℚ) * (2 : ℚ) ^ f32Quantum z
            = -(2 : ℚ) ^ (f32Quantum z + 23) := by
          rw [zpow_add₀ (by norm_num)]
          push_cast
          norm_num
          ring
        have h1 : z / (2 : ℚ) ^ f32Quantum z ≤ (((-(2 ^ 23) : Int) : Int) : ℚ) := by
          rw [div_le_iff₀ hqpos, e23]
          linarith
        have h2 := roundHalfEven_le h1
        have h3 : (roundHalfEven (z / (2 : ℚ) ^ f32Quantum z) : ℚ)
            ≤ (((-(2 ^ 23) : Int) : Int) : ℚ) := by exact_mod_cast h2
        have h4 := mul_le_mul_of_nonneg_right h3 hqpos.le
        rw [e23] at h4
        linarith
      · rw [abs_of_pos hpos] at hbig
        linarith

theorem int_rep {k : Int} (hk : |k| ≤ 2 ^ 24) :
    ∃ m e : Int, |m| < 2 ^ 24 ∧ -149 ≤ e ∧ (k : ℚ) = (m : ℚ) * (2 : ℚ) ^ e := by
  by_cases h : |k| < 2 ^ 24
  · exact ⟨k, 0, h, by norm_num, by simp⟩
  · have h2 : |k| = 2 ^ 24 := le_antisymm hk (not_lt.1 h)
    rcases (abs_eq (by norm_num)).1 h2 with e | e
    · exact ⟨2 ^ 23, 1, by norm_num, by norm_num, by rw [e]; norm_num⟩
    · exact ⟨-(2 ^ 23), 1, by norm_num, by norm_num, by rw [e]; norm_num⟩

theorem f32Nearest_ge_intCast {z : ℚ} (k : Int) (hk : |k| ≤ 2 ^ 24) (h : (k : ℚ) ≤ z) :
    (k : ℚ) ≤ f32Nearest z := by
  obtain ⟨m, e, hm, he, hr⟩ := int_rep hk
  rw [hr] at h ⊢
  exact f32Nearest_ge_of_le m e hm he h

theorem f32Nearest_le_intCast {z : ℚ} (k : Int) (hk : |k| ≤ 2 ^ 24) (h : z ≤ (k : ℚ)) :
    f32Nearest z ≤ (k : ℚ) := by
  obtain ⟨m, e, hm, he, hr⟩ := int_rep hk
  rw [hr] at h ⊢
  exact f32Nearest_le_of_le m e hm he h

theorem f32Nearest_intCast (k : Int) (hk : |k| ≤ 2 ^ 24) : f32Nearest (k : ℚ) = (k : ℚ) :=
  le_antisymm (f32Nearest_le_intCast k hk (le_refl _)) (f32Nearest_ge_intCast k hk (le_refl _))

theorem f32Round_intCast (k : Int) (hk : |k| ≤ 2 ^ 24) : f32Round (k : ℚ) = some (k : ℚ) := by
  unfold f32Round
  rw [f32Nearest_intCast k hk, if_pos]
  have h1 : ((|k| : Int) : ℚ) ≤ ((2 ^ 24 : Int) : ℚ) := by exact_mod_cast hk
  rw [Int.cast_abs] at h1
  have h2 : (((2 ^ 24 : Int) : Int) : ℚ) < (2 : ℚ) ^ (128 : Nat) := by norm_num
  linarith

theorem f32OfInt_exact (k : Int) (hk : |k| ≤ 2 ^ 24) : f32OfInt k = some (k : ℚ) :=
  f32Round_intCast k hk

theorem f32OfNat_exact (n : Nat) (hn : n ≤ 2 ^ 24) : f32OfNat n = some (n : ℚ) := by
  have h := f32Round_intCast (n : Int)
    (by rw [abs_of_nonneg (Int.natCast_nonneg n)]; exact_mod_cast hn)
  simpa [f32OfNat] using h

theorem f32Round_eq_some {x v : ℚ} (h : f32Round x = some v) : v = f32Nearest x := by
  unfold f32Round at h
  split_ifs at h
  exact (Option.some.inj h).symm

/-! ## Strip: lemmas -/

theorem conflicts_eq_some {column : Nat} {speed y : ℚ} {s : Strip} {b : Bool}
    (h : conflicts column speed y s = some b) :
    (b = true ↔ s.x = column ∧ (speed ≥ s.speed ∨ ∃ t, tailEnd s = some t ∧ y ≥ t)) ∧
      (b = false → s.x = column → speed < s.speed ∧ ∃ t, tailEnd s = some t ∧ y < t) := by
  unfold conflicts at h
  by_cases hc : column = s.x
  · rw [if_pos hc] at h
    by_cases hs : speed ≥ s.speed
    · rw [if_pos hs] at h
      have hb : b = true := (Option.some.inj h).symm
      subst hb
      exact ⟨⟨fun _ => ⟨hc.symm, Or.inl hs⟩, fun _ => rfl⟩, fun hf => absurd hf (by simp)⟩
    · rw [if_neg hs] at h
      cases ht : tailEnd s with
      | none =>
        rw [ht] at h
        exact absurd h (by simp)
      | some t =>
        rw [ht] at h
        simp only [Option.some_bind, Option.some.injEq] at h
        subst h
        refine ⟨⟨fun hb => ⟨hc.symm, Or.inr ⟨t, rfl, of_decide_eq_true hb⟩⟩, ?_⟩, ?_⟩
        · rintro ⟨-, hsp | ⟨t1, e, hy⟩⟩
          · exact absurd hsp hs
          · rw [← Option.some.inj e] at hy
            exact decide_eq_true hy
        · intro hf _
          exact ⟨not_le.1 hs, t, rfl, not_le.1 (of_decide_eq_false hf)⟩
  · rw [if_neg hc] at h
    have hb : b = false := (Option.some.inj h).symm
    subst hb
    refine ⟨⟨fun hf => absurd hf (by simp), ?_⟩, ?_⟩
    · rintro ⟨hx, -⟩
      exact absurd hx.symm hc
    · intro _ hx
      exact absurd hx.symm hc

theorem conflicts_isSome (column : Nat) (speed y : ℚ) {s : Strip} {t : ℚ}
    (ht : tailEnd s = some t) : ∃ b, conflicts column speed y s = some b := by
  unfold conflicts
  split_ifs
  · exact ⟨true, rfl⟩
  · rw [ht]
    exact ⟨_, rfl⟩
  · exact ⟨false, rfl⟩

theorem columnTakenFrom_eq_some (column : Nat) (speed y : ℚ) :
    ∀ (strips : List Strip) (taken b : Bool),
      columnTakenFrom column speed y taken strips = some b →
      (b = true ↔ taken = true ∨ ∃ s ∈ strips, s.x = column ∧
          (speed ≥ s.speed ∨ ∃ t, tailEnd s = some t ∧ y ≥ t)) ∧
        (b = false → ∀ s ∈ strips, s.x = column →
          speed < s.speed ∧ ∃ t, tailEnd s = some t ∧ y < t) := by
  intro strips
  induction strips with
  | nil =>
    intro taken b h
    simp only [columnTakenFrom, Option.some.injEq] at h
    subst h
    simp
  | cons s ss ih =>
    intro taken b h
    simp only [columnTakenFrom] at h
    cases hc : conflicts column speed y s with
    | none =>
      rw [hc] at h
      exact absurd h (by simp)
    | some c =>
      rw [hc] at h
      simp only [Option.some_bind] at h
      obtain ⟨i1, i2⟩ := ih _ b h
      obtain ⟨c1, c2⟩ := conflicts_eq_some hc
      constructor
      · constructor
        · intro hb
          rcases i1.1 hb with ht | ⟨s1, hs1, hx⟩
          · cases c with
            | true => exact Or.inr ⟨s, List.mem_cons_self _ _, c1.1 rfl⟩
            | false => exact Or.inl (by simpa using ht)
          · exact Or.inr ⟨s1, List.mem_cons_of_mem _ hs1, hx⟩
        · rintro (ht | ⟨s1, hs1, hx⟩)
          · apply i1.2
            left
            subst ht
            cases c <;> rfl
          · rcases List.mem_cons.1 hs1 with e | hm
            · subst e
              apply i1.2
              left
              rw [c1.2 hx]
              rfl
            · exact i1.2 (Or.inr ⟨s1, hm, hx⟩)
      · intro hb s1 hs1 hx
        rcases List.mem_cons.1 hs1 with e | hm
        · subst e
          apply c2 _ hx
          cases c with
          | false => rfl
          | true =>
            have := i1.2 (Or.inl rfl)
            rw [hb] at this
            exact absurd this (by simp)
        · exact i2 hb s1 hm hx

theorem columnTaken_eq_some {strips : List Strip} {column : Nat} {speed y : ℚ} {b : Bool}
    (h : columnTaken strips column speed y = some b) :
    (b = true ↔ ∃ s ∈ strips, s.x = column ∧
        (speed ≥ s.speed ∨ ∃ t, tailEnd s = some t ∧ y ≥ t)) ∧
      (b = false → ∀ s ∈ strips, s.x = column →
        speed < s.speed ∧ ∃ t, tailEnd s = some t ∧ y < t) := by
  obtain ⟨h1, h2⟩ := columnTakenFrom_eq_some column speed y strips false b h
  refine ⟨?_, h2⟩
  rw [h1]
  simp

theorem columnTakenFrom_isSome (column : Nat) (speed y : ℚ) :
    ∀ (strips : List Strip) (taken : Bool), (∀ s ∈ strips, ∃ t, tailEnd s = some t) →
      ∃ b, columnTakenFrom column speed y taken strips = some b := by
  intro strips
  induction strips with
  | nil => intro taken _; exact ⟨taken, rfl⟩
  | cons s ss ih =>
    intro taken hall
    obtain ⟨t, ht⟩ := hall s (List.mem_cons_self _ _)
    obtain ⟨c, hc⟩ := conflicts_isSome column speed y ht
    obtain ⟨b, hb⟩ := ih (if c then true else taken)
      (fun s1 hs1 => hall s1 (List.mem_cons_of_mem _ hs1))
    exact ⟨b, by simp only [columnTakenFrom, hc, Option.some_bind, hb]⟩

theorem columnTaken_isSome (strips : List Strip) (column : Nat) (speed y : ℚ)
    (hall : ∀ s ∈ strips, ∃ t, tailEnd s = some t) :
    ∃ b, columnTaken strips column speed y = some b :=
  columnTakenFrom_isSome column speed y strips false hall

theorem spawnStart_eq_some {me : Strip} {head : Int} {g : Rng} {me1 : Strip} {g1 : Rng}
    (h : spawnStart me head g = some (me1, g1)) :
    minStripLength ≤ me1.length ∧ me1.length ≤ maxStripLength ∧
      me1.x = me.x ∧ me1.speed = me.speed ∧ me1.max = me.max ∧
      me1.headNeedsUpdating = me.headNeedsUpdating ∧
      (head < 0 → me1.m_head = head ∧ startAt head = some me1.y ∧
        g.ints = me1.length :: g1.ints) ∧
      (0 ≤ head → me1.m_head = me.m_head ∧
        ∃ d : Nat, d ≤ me.max.y ∧ startAbove d = some me1.y ∧
          g.ints = me1.length :: d :: g1.ints) := by
  unfold spawnStart at h
  cases hr : randomValue minStripLength maxStripLength g with
  | none => simp [hr] at h
  | some r =>
    obtain ⟨len, g2⟩ := r
    have hlen := randomValue_eq_some hr
    simp only [hr, Option.some_bind] at h
    by_cases hh : head < 0
    · simp only [hh, if_true] at h
      cases hy : startAt head with
      | none => simp [hy] at h
      | some y =>
        simp only [hy, Option.some_bind, Option.some.injEq, Prod.mk.injEq] at h
        obtain ⟨h1, h2⟩ := h
        subst h1 h2
        refine ⟨hlen.2.1, hlen.2.2.1, rfl, rfl, rfl, rfl, ?_, ?_⟩
        · intro _; exact ⟨rfl, rfl, hlen.2.2.2.1⟩
        · intro h0; omega
    · simp only [hh, if_false] at h
      cases hr2 : randomValue 0 me.max.y g2 with
      | none => simp [hr2] at h
      | some r2 =>
        obtain ⟨d, g3⟩ := r2
        have hd := randomValue_eq_some hr2
        simp only [hr2, Option.some_bind] at h
        cases hy : startAbove d with
        | none => simp [hy] at h
        | some y =>
          simp only [hy, Option.some_bind, Option.some.injEq, Prod.mk.injEq] at h
          obtain ⟨h1, h2⟩ := h
          subst h1 h2
          refine ⟨hlen.2.1, hlen.2.2.1, rfl, rfl, rfl, rfl, ?_, ?_⟩
          · intro h0; exact absurd h0 hh
          · intro _
            refine ⟨rfl, d, hd.2.2.1, hy, ?_⟩
            rw [hlen.2.2.2.1, hd.2.2.2.1]

theorem spawnLoop_eq_some (strips : List Strip) (self : Option Nat) (fuel : Nat) :
    ∀ (me : Strip) (g : Rng) (me1 : Strip) (column : Nat) (g1 : Rng),
      spawnLoop strips self fuel me g = some (me1, column, g1) →
      me1 = { me with speed := me1.speed } ∧
        minStripSpeed ≤ me1.speed ∧ me1.speed ≤ maxStripSpeed ∧ column ≤ me.max.x ∧
        columnTaken (view strips self me1) column me1.speed me1.y = some false := by
  induction fuel with
  | zero => intro me g me1 column g1 h; simp [spawnLoop] at h
  | succ fuel ih =>
    intro me g me1 column g1 h
    unfold spawnLoop at h
    cases hr : randomValueFloat minStripSpeed maxStripSpeed g with
    | none => simp [hr] at h
    | some r =>
      obtain ⟨sp, g2⟩ := r
      have hsp := randomValueFloat_eq_some hr
      simp only [hr, Option.some_bind] at h
      cases hr2 : randomValue 0 me.max.x g2 with
      | none => simp [hr2] at h
      | some r2 =>
        obtain ⟨col, g3⟩ := r2
        have hcol := randomValue_eq_some hr2
        simp only [hr2, Option.some_bind] at h
        cases ht : columnTaken (view strips self { me with speed := sp }) col sp me.y with
        | none => simp [ht] at h
        | some taken =>
          simp only [ht, Option.some_bind] at h
          cases taken with
          | true =>
            simp only [if_true] at h
            obtain ⟨h1, h2, h3, h4, h5⟩ := ih _ g3 me1 column g1 h
            refine ⟨?_, h2, h3, h4, h5⟩
            rw [h1]
          | false =>
            simp only [Bool.false_eq_true, if_false, Option.some.injEq, Prod.mk.injEq] at h
            obtain ⟨h1, h2, h3⟩ := h
            subst h1 h2 h3
            exact ⟨rfl, hsp.2.1, hsp.2.2.1, hcol.2.2.1, ht⟩

theorem priv_spawn_eq_some {strips : List Strip} {self : Option Nat} {me : Strip} {head : Int}
    {g : Rng} {me1 : Strip} {g1 : Rng} (h : priv_spawn strips self me head g = some (me1, g1)) :
    ∃ (me0 : Strip) (g0 : Rng), spawnStart me head g = some (me0, g0) ∧
      spawnLoop strips self g0.ints.length me0 g0
        = some ({ me0 with speed := me1.speed }, me1.x, g1) ∧
      me1 = { me0 with speed := me1.speed, x := me1.x } := by
  unfold priv_spawn at h
  cases hs : spawnStart me head g with
  | none => simp [hs] at h
  | some r =>
    obtain ⟨me0, g0⟩ := r
    simp only [hs, Option.some_bind] at h
    cases hl : spawnLoop strips self g0.ints.length me0 g0 with
    | none => simp [hl] at h
    | some r2 =>
      obtain ⟨me2, col, g2⟩ := r2
      simp only [hl, Option.some_bind, Option.some.injEq, Prod.mk.injEq] at h
      obtain ⟨h1, h2⟩ := h
      subst h1 h2
      have hme2 := (spawnLoop_eq_some strips self _ me0 g0 me2 col g2 hl).1
      refine ⟨me0, g0, rfl, ?_, ?_⟩
      · simp only
        rw [hl, hme2]
      · simp only
        rw [hme2]

theorem priv_spawn_spec {strips : List Strip} {self : Option Nat} {me : Strip} {head : Int}
    {g : Rng} {me1 : Strip} {g1 : Rng} (h : priv_spawn strips self me head g = some (me1, g1)) :
    (minStripLength ≤ me1.length ∧ me1.length ≤ maxStripLength) ∧
      (minStripSpeed ≤ me1.speed ∧ me1.speed ≤ maxStripSpeed) ∧
      me1.x ≤ me.max.x ∧ me1.max = me.max ∧
      me1.headNeedsUpdating = me.headNeedsUpdating ∧
      (head < 0 → me1.m_head = head ∧ startAt head = some me1.y) ∧
      (0 ≤ head → me1.m_head = me.m_head ∧
        ∃ (d : Nat) (rest : List Nat), d ≤ me.max.y ∧ startAbove d = some me1.y ∧
          g.ints = me1.length :: d :: rest) ∧
      columnTaken (view strips self { me1 with x := me.x }) me1.x me1.speed me1.y
        = some false := by
  obtain ⟨me0, g0, hs, hl, hme⟩ := priv_spawn_eq_some h
  obtain ⟨a1, a2, a3, a4, a5, a6, a7, a8⟩ := spawnStart_eq_some hs
  obtain ⟨-, b2, b3, b4, b5⟩ := spawnLoop_eq_some strips self _ me0 g0 _ _ g1 hl
  have e1 : me1.length = me0.length := by rw [hme]
  have e2 : me1.max = me0.max := by rw [hme]
  have e3 : me1.headNeedsUpdating = me0.headNeedsUpdating := by rw [hme]
  have e4 : me1.m_head = me0.m_head := by rw [hme]
  have e5 : me1.y = me0.y := by rw [hme]
  have e6 : ({ me1 with x := me.x } : Strip) = { me0 with speed := me1.speed } := by
    rw [hme, ← a3]
  simp only at b2 b3 b4 b5
  refine ⟨⟨e1 ▸ a1, e1 ▸ a2⟩, ⟨b2, b3⟩, a5 ▸ b4, e2.trans a5, e3.trans a6, ?_, ?_, ?_⟩
  · intro hh
    obtain ⟨c1, c2, -⟩ := a7 hh
    exact ⟨e4.trans c1, e5 ▸ c2⟩
  · intro hh
    obtain ⟨c1, d, c2, c3, c4⟩ := a8 hh
    exact ⟨e4.trans c1, d, g0.ints, c2, e5 ▸ c3, e1 ▸ c4⟩
  · rw [e6, e5]
    exact b5

theorem floatToInt_eq_some {x : ℚ} {z : Int} (h : floatToInt x = some z) :
    z = truncToInt x ∧ -(2 ^ 31) ≤ z ∧ z < 2 ^ 31 := by
  unfold floatToInt at h
  split_ifs at h with hc
  have e : truncToInt x = z := Option.some.inj h
  rw [← e]
  exact ⟨rfl, hc.1, hc.2⟩

theorem priv_updateHead_eq_some {me me1 : Strip} (h : priv_updateHead me = some me1) :
    me1.x = me.x ∧ me1.y = me.y ∧ me1.length = me.length ∧ me1.speed = me.speed ∧
      me1.max = me.max ∧ floatToInt me.y = some me1.m_head ∧
      (me1.headNeedsUpdating = true ↔ me1.m_head ≠ me.m_head) := by
  unfold priv_updateHead at h
  cases hf : floatToInt me.y with
  | none => simp [hf] at h
  | some newHead =>
    simp only [hf, Option.some_bind, Option.some.injEq] at h
    subst h
    simp

theorem update_eq_some {strips : List Strip} {self : Option Nat} {me : Strip} {dt : ℚ}
    {g : Rng} {me1 : Strip} {g1 : Rng} (h : update strips self me dt g = some (me1, g1)) :
    ∃ y1, advance me dt = some y1 ∧
      ((pastBottom { me with y := y1 } = some false ∧ g1 = g ∧
          priv_updateHead { me with y := y1 } = some me1) ∨
        (pastBottom { me with y := y1 } = some true ∧
          ∃ me0, priv_spawn strips self { me with y := y1 } 0 g = some (me0, g1) ∧
            priv_updateHead me0 = some me1)) := by
  unfold update at h
  cases ha : advance me dt with
  | none => simp [ha] at h
  | some y1 =>
    simp only [ha, Option.some_bind] at h
    refine ⟨y1, rfl, ?_⟩
    cases hp : pastBottom { me with y := y1 } with
    | none => simp [hp] at h
    | some past =>
      simp only [hp, Option.some_bind] at h
      cases past with
      | false =>
        simp only [Bool.false_eq_true, if_false, Option.some_bind] at h
        cases hu : priv_updateHead { me with y := y1 } with
        | none => simp [hu] at h
        | some me2 =>
          simp only [hu, Option.some_bind, Option.some.injEq, Prod.mk.injEq] at h
          exact Or.inl ⟨rfl, h.2.symm, by rw [h.1]⟩
      | true =>
        simp only [if_true] at h
        cases hs : priv_spawn strips self { me with y := y1 } 0 g with
        | none => simp [hs] at h
        | some r =>
          obtain ⟨me0, g0⟩ := r
          simp only [hs, Option.some_bind] at h
          cases hu : priv_updateHead me0 with
          | none => simp [hu] at h
          | some me2 =>
            simp only [hu, Option.some_bind, Option.some.injEq, Prod.mk.injEq] at h
            exact Or.inr ⟨rfl, me0, by rw [h.2], h.1 ▸ hu⟩

theorem startAt_eq_some {head : Int} {y : ℚ} (h : startAt head = some y) :
    ∃ hf, f32OfInt head = some hf ∧ f32Sub hf 1 = some y := by
  unfold startAt at h
  cases hf : f32OfInt head with
  | none => simp [hf] at h
  | some v => exact ⟨v, rfl, by simpa [hf] using h⟩

theorem startAbove_eq_some {d : Nat} {y : ℚ} (h : startAbove d = some y) :
    ∃ df, f32OfNat d = some df ∧ f32Sub (-1) df = some y := by
  unfold startAbove at h
  cases hf : f32OfNat d with
  | none => simp [hf] at h
  | some v => exact ⟨v, rfl, by simpa [hf] using h⟩

theorem startAt_exact {head : Int} (h1 : -(2 ^ 24) < head) (h2 : head < 0) :
    startAt head = some ((head : ℚ) - 1) := by
  have a : |head| ≤ 2 ^ 24 := abs_le.2 ⟨by omega, by omega⟩
  have b : |head - 1| ≤ 2 ^ 24 := abs_le.2 ⟨by omega, by omega⟩
  have e := f32Round_intCast (head - 1) b
  push_cast at e
  simp only [startAt, f32OfInt_exact head a, Option.some_bind, f32Sub, e]

theorem startAbove_exact {d : Nat} (h : d < 2 ^ 24) : startAbove d = some (-1 - (d : ℚ)) := by
  have b : |(-1 - (d : Int))| ≤ 2 ^ 24 := abs_le.2 ⟨by omega, by omega⟩
  have e := f32Round_intCast (-1 - (d : Int)) b
  push_cast at e
  simp only [startAbove, f32OfNat_exact d (by omega), Option.some_bind, f32Sub, e]

theorem startAt_neg {head : Int} {y : ℚ} (h : startAt head = some y) (h2 : head < 0) :
    y < 0 := by
  obtain ⟨hf, a, b⟩ := startAt_eq_some h
  have e1 := f32Round_eq_some a
  have e2 := f32Round_eq_some b
  have hle : ((head : Int) : ℚ) ≤ ((-1 : Int) : ℚ) := by exact_mod_cast (by omega : head ≤ -1)
  have c1 : hf ≤ ((-1 : Int) : ℚ) := e1 ▸ f32Nearest_le_intCast (-1) (by norm_num) hle
  have c2 : y ≤ ((-1 : Int) : ℚ) :=
    e2 ▸ f32Nearest_le_intCast (-1) (by norm_num) (by push_cast at c1 ⊢; linarith)
  push_cast at c2
  linarith

theorem startAbove_le {d : Nat} {y : ℚ} (h : startAbove d = some y) : y ≤ -1 := by
  obtain ⟨df, a, b⟩ := startAbove_eq_some h
  have e1 := f32Round_eq_some a
  have e2 := f32Round_eq_some b
  have c1 : 0 ≤ df := e1 ▸ f32Nearest_nonneg (Nat.cast_nonneg d)
  have c2 : y ≤ ((-1 : Int) : ℚ) :=
    e2 ▸ f32Nearest_le_intCast (-1) (by norm_num) (by push_cast; linarith)
  push_cast at c2
  exact c2

theorem advance_eq_some {me : Strip} {dt y1 : ℚ} (h : advance me dt = some y1) :
    ∃ step, f32Mul me.speed dt = some step ∧ f32Add me.y step = some y1 := by
  unfold advance at h
  cases hf : f32Mul me.speed dt with
  | none => simp [hf] at h
  | some v => exact ⟨v, rfl, by simpa [hf] using h⟩

theorem advance_ge {me : Strip} {dt y1 : ℚ} (h : advance me dt = some y1)
    (hspeed : 0 ≤ me.speed) (hdt : 0 ≤ dt) (k : Int) (hk : |k| ≤ 2 ^ 24)
    (hle : (k : ℚ) ≤ me.y) : (k : ℚ) ≤ y1 := by
  obtain ⟨step, a, b⟩ := advance_eq_some h
  have e1 := f32Round_eq_some a
  have e2 := f32Round_eq_some b
  have c1 : 0 ≤ step := e1 ▸ f32Nearest_nonneg (mul_nonneg hspeed hdt)
  exact e2 ▸ f32Nearest_ge_intCast k hk (by linarith)

theorem pastBottom_of_le (me : Strip) (hsmall : me.max.y + me.length + 2 ≤ 2 ^ 24)
    (hy : ((me.max.y + me.length + 2 : Nat) : ℚ) ≤ me.y) : pastBottom me = some true := by
  have e : uadd (uadd me.max.y me.length) 1 = me.max.y + me.length + 1 := by
    unfold uadd
    rw [Nat.mod_eq_of_lt (a := me.max.y + me.length) (by omega), Nat.mod_eq_of_lt (by omega)]
  have hlt : ((me.max.y + me.length + 1 : Nat) : ℚ) < me.y := by
    push_cast at hy ⊢
    linarith
  simp only [pastBottom, e, f32OfNat_exact _ (by omega : me.max.y + me.length + 1 ≤ 2 ^ 24),
    Option.some_bind, gt_iff_lt, decide_eq_true hlt]

theorem floatToInt_of_bounds {y : ℚ} (h1 : -(2 ^ 31 : ℚ) ≤ y) (h2 : y ≤ 0) :
    floatToInt y = some (truncToInt y) := by
  unfold floatToInt
  rw [if_pos]
  unfold truncToInt
  split_ifs with h0
  · have : y = 0 := le_antisymm h2 h0
    subst this
    simp
  · constructor
    · have h3 : ((-(2 ^ 31) : Int) : ℚ) ≤ ((⌈y⌉ : Int) : ℚ) := by
        push_cast
        exact le_trans h1 (Int.le_ceil y)
      exact_mod_cast h3
    · have : ⌈y⌉ ≤ 0 := Int.ceil_le.2 (by simpa using h2)
      omega

theorem f32Round_bound {x : ℚ} {k : Int} (hx : |x| < (2 : ℚ) ^ k) (hk : -125 ≤ k)
    (hk2 : k ≤ 127) : ∃ v, f32Round x = some v ∧ |v| < (2 : ℚ) ^ (k + 1) := by
  refine ⟨f32Nearest x, f32Round_eq hx hk hk2, ?_⟩
  have h1 := f32Nearest_error hx hk
  have h2 : (2 : ℚ) ^ (k - 25) ≤ (2 : ℚ) ^ k := zpow_le_zpow_right₀ (by norm_num) (by omega)
  have h4 : |f32Nearest x| ≤ |f32Nearest x - x| + |x| := by
    have := abs_add (f32Nearest x - x) x
    simpa using this
  have h5 : (2 : ℚ) ^ (k + 1) = (2 : ℚ) ^ k + (2 : ℚ) ^ k := by
    rw [zpow_add_one₀ (by norm_num)]
    ring
  rw [h5]
  linarith

theorem f32OfNat_isSome {n : Nat} (hn : n < 2 ^ 32) :
    ∃ v, f32OfNat n = some v ∧ |v| < (2 : ℚ) ^ (33 : Int) := by
  have hx : |(n : ℚ)| < (2 : ℚ) ^ (32 : Int) := by
    rw [abs_of_nonneg (Nat.cast_nonneg n)]
    have h2 : ((2 ^ 32 : Nat) : ℚ) = (2 : ℚ) ^ (32 : Int) := by norm_num
    rw [← h2]
    exact_mod_cast hn
  exact f32Round_bound hx (by norm_num) (by norm_num)

theorem tailEnd_isSome {s : Strip} (hy : |s.y| < (2 : ℚ) ^ (100 : Int))
    (hl : s.length < 2 ^ 32) : ∃ t, tailEnd s = some t := by
  obtain ⟨len, e1, b1⟩ := f32OfNat_isSome hl
  have p33 : (2 : ℚ) ^ (33 : Int) ≤ (2 : ℚ) ^ (100 : Int) :=
    zpow_le_zpow_right₀ (by norm_num) (by norm_num)
  have p101 : (2 : ℚ) ^ (101 : Int) = (2 : ℚ) ^ (100 : Int) + (2 : ℚ) ^ (100 : Int) := by
    norm_num
  have a2 : |s.y - len| < (2 : ℚ) ^ (101 : Int) := by
    have := abs_sub s.y len
    linarith
  obtain ⟨above, e2, b2⟩ := f32Round_bound a2 (by norm_num) (by norm_num)
  have e3 : f32OfNat tailExtensionLength = some 3 := by
    simpa [tailExtensionLength] using f32OfNat_exact 3 (by norm_num)
  have a4 : |above - 3| < (2 : ℚ) ^ (103 : Int) := by
    have h1 := abs_sub above 3
    have h2 : |(3 : ℚ)| = 3 := abs_of_nonneg (by norm_num)
    have h3 : (2 : ℚ) ^ (101 : Int) + 1 + 3 ≤ (2 : ℚ) ^ (103 : Int) := by norm_num
    have h4 : (2 : ℚ) ^ (101 + 1 : Int) = (2 : ℚ) ^ (101 : Int) * 2 := by norm_num
    rw [h4] at b2
    rw [h2] at h1
    have h5 : (2 : ℚ) ^ (103 : Int) = (2 : ℚ) ^ (101 : Int) * 4 := by norm_num
    have h6 : (0 : ℚ) < (2 : ℚ) ^ (101 : Int) := by norm_num
    have h7 : (3 : ℚ) ≤ (2 : ℚ) ^ (101 : Int) := by norm_num
    linarith
  obtain ⟨t, e4, -⟩ := f32Round_bound a4 (by norm_num) (by norm_num)
  exact ⟨t, by simp only [tailEnd, e1, Option.some_bind, f32Sub, e2, e3, e4]⟩

theorem advance_isSome {me : Strip} {dt : ℚ} (hy : |me.y| < (2 : ℚ) ^ (100 : Int))
    (hs : |me.speed * dt| < (2 : ℚ) ^ (100 : Int)) : ∃ y1, advance me dt = some y1 := by
  obtain ⟨step, e1, b1⟩ := f32Round_bound hs (by norm_num) (by norm_num)
  have a2 : |me.y + step| < (2 : ℚ) ^ (102 : Int) := by
    have h1 := abs_add me.y step
    have h4 : (2 : ℚ) ^ (100 + 1 : Int) = (2 : ℚ) ^ (100 : Int) * 2 := by norm_num
    have h5 : (2 : ℚ) ^ (102 : Int) = (2 : ℚ) ^ (100 : Int) * 4 := by norm_num
    have h6 : (0 : ℚ) < (2 : ℚ) ^ (100 : Int) := by norm_num
    rw [h4] at b1
    linarith
  obtain ⟨y1, e2, -⟩ := f32Round_bound a2 (by norm_num) (by norm_num)
  exact ⟨y1, by simp only [advance, f32Mul, e1, Option.some_bind, f32Add, e2]⟩

theorem pastBottom_isSome (me : Strip) : ∃ b, pastBottom me = some b := by
  have hlt : uadd (uadd me.max.y me.length) 1 < 2 ^ 32 := by
    unfold uadd
    exact Nat.mod_lt _ (by norm_num)
  obtain ⟨v, e, -⟩ := f32OfNat_isSome hlt
  exact ⟨decide (me.y > v), by simp only [pastBottom, e, Option.some_bind]⟩

theorem update_of_not_past {strips : List Strip} {self : Option Nat} {me : Strip} {dt : ℚ}
    {g : Rng} {y1 : ℚ} {me1 : Strip} (ha : advance me dt = some y1)
    (hp : pastBottom { me with y := y1 } = some false)
    (hu : priv_updateHead { me with y := y1 } = some me1) :
    update strips self me dt g = some (me1, g) := by
  simp only [update, ha, Option.some_bind, hp, Bool.false_eq_true, if_false, hu]

theorem update_of_spawn {strips : List Strip} {self : Option Nat} {me : Strip} {dt : ℚ}
    {g : Rng} {y1 : ℚ} {me0 : Strip} {g1 : Rng} (ha : advance me dt = some y1)
    (hp : pastBottom { me with y := y1 } = some true)
    (hs : priv_spawn strips self { me with y := y1 } 0 g = some (me0, g1))
    (hmax : me.max.y + 2 ≤ 2 ^ 24) :
    ∃ me1, priv_updateHead me0 = some me1 ∧ update strips self me dt g = some (me1, g1) := by
  obtain ⟨-, -, -, -, -, -, c7, -⟩ := priv_spawn_spec hs
  obtain ⟨-, d, -, hd, hy, -⟩ := c7 (le_refl 0)
  simp only at hd
  have hex := startAbove_exact (d := d) (by omega)
  rw [hex] at hy
  have hy2 : me0.y = -1 - (d : ℚ) := (Option.some.inj hy).symm
  have hd2 : (d : ℚ) ≤ ((2 ^ 24 : Nat) : ℚ) := by exact_mod_cast (by omega : d ≤ 2 ^ 24)
  have hd0 : (0 : ℚ) ≤ (d : ℚ) := Nat.cast_nonneg d
  have hz : floatToInt me0.y = some (truncToInt me0.y) := by
    apply floatToInt_of_bounds
    · rw [hy2]
      push_cast at hd2
      linarith
    · rw [hy2]
      linarith
  cases hu : priv_updateHead me0 with
  | none => simp [priv_updateHead, hz] at hu
  | some me1 =>
    exact ⟨me1, rfl, by simp only [update, ha, Option.some_bind, hp, if_true, hs, hu]⟩

theorem columnTaken_rounds :
    columnTaken [⟨0, 1 / 2 ^ 30, 10, 20, false, ⟨73, 49⟩, 0⟩] 0 15 (-13) = some true ∧
      ¬ ((15 : ℚ) ≥ 20 ∨ (-13 : ℚ) ≥ 1 / 2 ^ 30 - (10 : Nat) - tailExtensionLength) := by
  refine ⟨by decide!, ?_⟩
  simp only [tailExtensionLength]
  norm_num

theorem startAt_rounds : startAt (-16777217) = some (-16777216) := by decide!

/-! ## Fuel: the loops are not cut short -/

theorem getRandomCharLoop_fuel (n : Nat) :
    ∀ (fuel value : Nat) (g : Rng), g.ints.length = n → n + 1 ≤ fuel →
      getRandomCharLoop fuel value g = getRandomCharLoop (n + 1) value g := by
  induction n with
  | zero =>
    intro fuel value g hg hf
    obtain ⟨f, rfl⟩ : ∃ f, fuel = f + 1 := ⟨fuel - 1, by omega⟩
    have hnil : g.ints = [] := List.length_eq_zero.1 hg
    simp only [getRandomCharLoop, randomValue, hnil, Option.none_bind]
  | succ n ih =>
    intro fuel value g hg hf
    obtain ⟨f, rfl⟩ : ∃ f, fuel = f + 1 := ⟨fuel - 1, by omega⟩
    simp only [getRandomCharLoop]
    split_ifs with hv
    · cases hr : randomValue 0 54 g with
      | none => rfl
      | some r =>
        obtain ⟨d, g2⟩ := r
        have hd := randomValue_eq_some hr
        have hlen : g2.ints.length = n := by
          have := congrArg List.length hd.2.2.2.1
          simp only [List.length_cons] at this
          omega
        simp only [Option.some_bind]
        exact ih f d g2 hlen (by omega)
    · rfl

theorem spawnLoop_fuel (strips : List Strip) (self : Option Nat) (n : Nat) :
    ∀ (fuel : Nat) (me : Strip) (g : Rng), g.ints.length = n → n ≤ fuel →
      spawnLoop strips self fuel me g = spawnLoop strips self n me g := by
  induction n with
  | zero =>
    intro fuel me g hg hf
    have hnil : g.ints = [] := List.length_eq_zero.1 hg
    cases fuel with
    | zero => rfl
    | succ f =>
      simp only [spawnLoop]
      cases hr : randomValueFloat minStripSpeed maxStripSpeed g with
      | none => rfl
      | some r =>
        obtain ⟨sp, g2⟩ := r
        have hd := randomValueFloat_eq_some hr
        have h2 : g2.ints = [] := by rw [hd.2.2.2.2, hnil]
        simp only [Option.some_bind, randomValue, h2, Option.none_bind]
  | succ n ih =>
    intro fuel me g hg hf
    obtain ⟨f, rfl⟩ : ∃ f, fuel = f + 1 := ⟨fuel - 1, by omega⟩
    simp only [spawnLoop]
    cases hr : randomValueFloat minStripSpeed maxStripSpeed g with
    | none => rfl
    | some r =>
      obtain ⟨sp, g2⟩ := r
      have hd := randomValueFloat_eq_some hr
      simp only [Option.some_bind]
      cases hr2 : randomValue 0 me.max.x g2 with
      | none => rfl
      | some r2 =>
        obtain ⟨col, g3⟩ := r2
        have hd2 := randomValue_eq_some hr2
        have hlen : g3.ints.length = n := by
          have := congrArg List.length hd2.2.2.2.1
          rw [hd.2.2.2.2, hg] at this
          simp only [List.length_cons] at this
          omega
        simp only [Option.some_bind]
        cases ht : columnTaken (view strips self { me with speed := sp }) col
            ({ me with speed := sp } : Strip).speed ({ me with speed := sp } : Strip).y with
        | none => rfl
        | some taken =>
          simp only [Option.some_bind]
          split_ifs with hc
          · exact ih f _ g3 hlen (by omega)
          · rfl

/-! ## Rendering: lemmas -/

theorem toInt32_le (n : Nat) : toInt32 n ≤ (n : Int) := by
  unfold toInt32
  have h : n % 2 ^ 32 ≤ n := Nat.mod_le _ _
  split <;> omega

theorem toInt32_of_lt {n : Nat} (h : n < 2 ^ 31) : toInt32 n = (n : Int) := by
  unfold toInt32
  have e : n % 2 ^ 32 = n := Nat.mod_eq_of_lt (by omega)
  rw [e, if_pos h]

theorem usub_one_le {a : Nat} (h : 0 < a) : usub a 1 ≤ a - 1 := by
  unfold usub
  have h1 : a % 2 ^ 32 ≤ a := Nat.mod_le _ _
  have h2 : a % 2 ^ 32 < 2 ^ 32 := Nat.mod_lt _ (by norm_num)
  by_cases h0 : a % 2 ^ 32 = 0
  · have h3 : 2 ^ 32 ≤ a := by
      by_contra hc
      have : a % 2 ^ 32 = a := Nat.mod_eq_of_lt (by omega)
      omega
    rw [h0]
    have : (0 + 2 ^ 32 - 1 % 2 ^ 32) % 2 ^ 32 = 2 ^ 32 - 1 := by norm_num
    omega
  · have : (a % 2 ^ 32 + 2 ^ 32 - 1 % 2 ^ 32) % 2 ^ 32 = a % 2 ^ 32 - 1 := by
      have e1 : (1 : Nat) % 2 ^ 32 = 1 := by norm_num
      rw [e1]
      have e2 : a % 2 ^ 32 + 2 ^ 32 - 1 = (a % 2 ^ 32 - 1) + 2 ^ 32 := by omega
      rw [e2, Nat.add_mod_right]
      exact Nat.mod_eq_of_lt (by omega)
    omega

theorem isValidRow_iff (m : Vector2u) (row : Int) :
    isValidRow m row = true ↔ 0 ≤ row ∧ row < toInt32 m.y := by
  unfold isValidRow
  simp only [Bool.not_eq_true', Bool.or_eq_false_iff, decide_eq_false_iff_not, not_lt, ge_iff_le,
    not_le]

theorem collect_forall (P : CellWrite → Prop) (body : Nat → Option (List CellWrite))
    (ys : List Nat) :
    ∀ ws, (∀ y ∈ ys, ∀ w, body y = some w → ∀ c ∈ w, P c) → collect body ys = some ws →
      ∀ c ∈ ws, P c := by
  induction ys with
  | nil =>
    intro ws _ h c hc
    simp only [collect, Option.some.injEq] at h
    subst h
    simp at hc
  | cons y ys ih =>
    intro ws hb h c hc
    simp only [collect] at h
    cases h1 : body y with
    | none => simp [h1] at h
    | some w =>
      cases h2 : collect body ys with
      | none => simp [h1, h2] at h
      | some ws1 =>
        simp only [h1, h2, Option.some_bind, Option.some.injEq] at h
        subst h
        rcases List.mem_append.1 hc with hc | hc
        · exact hb y (List.mem_cons_self _ _) w h1 c hc
        · exact ih ws1 (fun y1 hy1 => hb y1 (List.mem_cons_of_mem _ hy1)) h2 c hc

theorem headCell_cells {m : Vector2u} {i : Nat} {hp : Int × Int} {g : Rng}
    {ws : List CellWrite} {g1 : Rng} (h : headCell m i hp g = some (ws, g1)) :
    ∀ c ∈ ws, StripCell m i hp.1 c := by
  unfold headCell at h
  by_cases hv : isValidRow m hp.2 = true
  · simp only [hv, if_true] at h
    cases hr : getRandomChar g with
    | none => simp [hr] at h
    | some r =>
      simp only [hr, Option.some_bind, Option.some.injEq, Prod.mk.injEq] at h
      obtain ⟨h1, -⟩ := h
      subst h1
      intro c hc
      simp only [List.mem_singleton] at hc
      subst hc
      exact ⟨rfl, rfl, ((isValidRow_iff _ _).1 hv).1, ((isValidRow_iff _ _).1 hv).2⟩
  · simp only [hv, Bool.false_eq_true, if_false, Option.some.injEq, Prod.mk.injEq] at h
    obtain ⟨h1, -⟩ := h
    subst h1
    intro c hc
    simp at hc

theorem headFadeCell_cells {m : Vector2u} {i : Nat} {hp : Int × Int} {y : Nat}
    {ws : List CellWrite} (h : headFadeCell m i hp y = some ws) :
    ∀ c ∈ ws, StripCell m i hp.1 c := by
  unfold headFadeCell at h
  cases hr : f32Div (y : ℚ) (headLength : ℚ) with
  | none => simp [hr] at h
  | some ratio =>
    simp only [hr, Option.some_bind] at h
    by_cases hv : isValidRow m (hp.2 - toInt32 y) = true
    · simp only [hv, Bool.not_true, Bool.false_eq_true, if_false] at h
      cases hc : linearInterpolationColor headColor baseColor ratio with
      | none => simp [hc] at h
      | some col =>
        simp only [hc, Option.some_bind, Option.some.injEq] at h
        subst h
        intro c hc
        simp only [List.mem_singleton] at hc
        subst hc
        exact ⟨rfl, rfl, ((isValidRow_iff _ _).1 hv).1, ((isValidRow_iff _ _).1 hv).2⟩
    · simp only [hv, Bool.not_false, if_true, Option.some.injEq] at h
      subst h
      intro c hc
      simp at hc

theorem tailFadeCell_cells {m : Vector2u} {i : Nat} {hp : Int × Int} {len y : Nat}
    {ws : List CellWrite} (h : tailFadeCell m i hp len y = some ws) :
    ∀ c ∈ ws, StripCell m i hp.1 c := by
  unfold tailFadeCell at h
  cases hr : f32Div (y : ℚ) (tailLength : ℚ) with
  | none => simp [hr] at h
  | some ratio =>
    simp only [hr, Option.some_bind] at h
    by_cases hv : isValidRow m (hp.2 - toInt32 (usub len y)) = true
    · simp only [hv, Bool.not_true, Bool.false_eq_true, if_false] at h
      cases hc : linearInterpolationColor backgroundColor baseColor ratio with
      | none => simp [hc] at h
      | some col =>
        simp only [hc, Option.some_bind, Option.some.injEq] at h
        subst h
        intro c hc
        simp only [List.mem_singleton] at hc
        subst hc
        exact ⟨rfl, rfl, ((isValidRow_iff _ _).1 hv).1, ((isValidRow_iff _ _).1 hv).2⟩
    · simp only [hv, Bool.not_false, if_true, Option.some.injEq] at h
      subst h
      intro c hc
      simp at hc

theorem tailEraseCell_cells {m : Vector2u} {i : Nat} {hp : Int × Int} {len y : Nat}
    {ws : List CellWrite} (h : tailEraseCell m i hp len y = some ws) :
    ∀ c ∈ ws, StripCell m i hp.1 c := by
  unfold tailEraseCell at h
  by_cases hv : isValidRow m (hp.2 - toInt32 (uadd len y)) = true
  · simp only [hv, Bool.not_true, Bool.false_eq_true, if_false, Option.some.injEq] at h
    subst h
    intro c hc
    simp only [List.mem_singleton] at hc
    subst hc
    exact ⟨rfl, rfl, ((isValidRow_iff _ _).1 hv).1, ((isValidRow_iff _ _).1 hv).2⟩
  · simp only [hv, Bool.not_false, if_true, Option.some.injEq] at h
    subst h
    intro c hc
    simp at hc

theorem drawStrip_eq_some {m : Vector2u} {i : Nat} {s : Strip} {g : Rng} {s1 : Strip}
    {ws : List CellWrite} {g1 : Rng} (h : drawStrip m i s g = some (s1, ws, g1)) :
    clearFlag s1 = clearFlag s ∧ ∀ c ∈ ws, StripCell m i (toInt32 s.x) c := by
  unfold drawStrip at h
  by_cases hf : s.headNeedsUpdating = true
  · simp only [hf, if_true] at h
    cases h0 : headCell m i (getHeadPosition s).1 g with
    | none => simp [h0] at h
    | some r0 =>
      obtain ⟨w0, g0⟩ := r0
      cases h1 : collect (headFadeCell m i (getHeadPosition s).1) (List.range' 1 headLength) with
      | none => simp [h0, h1] at h
      | some w1 =>
        cases h2 : collect (tailFadeCell m i (getHeadPosition s).1 (getHeadPosition s).2.length)
            (List.range tailLength) with
        | none => simp [h0, h1, h2] at h
        | some w2 =>
          cases h3 : collect
              (tailEraseCell m i (getHeadPosition s).1 (getHeadPosition s).2.length)
              (List.range tailExtensionLength) with
          | none => simp [h0, h1, h2, h3] at h
          | some w3 =>
            simp only [h0, h1, h2, h3, Option.some_bind, Option.some.injEq, Prod.mk.injEq] at h
            obtain ⟨e1, e2, -⟩ := h
            subst e1 e2
            refine ⟨rfl, ?_⟩
            intro c hc
            have hx : (getHeadPosition s).1.1 = toInt32 s.x := rfl
            simp only [List.mem_append] at hc
            rcases hc with ((hc | hc) | hc) | hc
            · exact hx ▸ headCell_cells h0 c hc
            · exact hx ▸ collect_forall _ _ _ w1 (fun y _ w hw => headFadeCell_cells hw) h1 c hc
            · exact hx ▸ collect_forall _ _ _ w2 (fun y _ w hw => tailFadeCell_cells hw) h2 c hc
            · exact hx ▸ collect_forall _ _ _ w3 (fun y _ w hw => tailEraseCell_cells hw) h3 c hc
  · simp only [hf, Bool.false_eq_true, if_false, Option.some.injEq, Prod.mk.injEq] at h
    obtain ⟨e1, e2, -⟩ := h
    subst e1 e2
    exact ⟨rfl, fun c hc => by simp at hc⟩

theorem drawStrips_eq_some (m : Vector2u) (ss : List Strip) :
    ∀ (i : Nat) (g : Rng) (ss1 : List Strip) (ws : List CellWrite) (g1 : Rng),
      drawStrips m i ss g = some (ss1, ws, g1) →
      ss1.map clearFlag = ss.map clearFlag ∧
        ∀ c ∈ ws, ∃ (j : Nat) (s : Strip), s ∈ ss ∧ StripCell m j (toInt32 s.x) c := by
  induction ss with
  | nil =>
    intro i g ss1 ws g1 h
    simp only [drawStrips, Option.some.injEq, Prod.mk.injEq] at h
    obtain ⟨e1, e2, -⟩ := h
    subst e1 e2
    exact ⟨rfl, fun c hc => by simp at hc⟩
  | cons s ss ih =>
    intro i g ss1 ws g1 h
    simp only [drawStrips] at h
    cases h0 : drawStrip m i s g with
    | none => simp [h0] at h
    | some r0 =>
      obtain ⟨s1, w0, g0⟩ := r0
      cases h1 : drawStrips m (i + 1) ss g0 with
      | none => simp [h0, h1] at h
      | some r1 =>
        obtain ⟨ss2, w1, g2⟩ := r1
        simp only [h0, h1, Option.some_bind, Option.some.injEq, Prod.mk.injEq] at h
        obtain ⟨e1, e2, -⟩ := h
        subst e1 e2
        obtain ⟨a1, a2⟩ := drawStrip_eq_some h0
        obtain ⟨b1, b2⟩ := ih (i + 1) g0 ss2 w1 g2 h1
        refine ⟨by simp only [List.map_cons, a1, b1], ?_⟩
        intro c hc
        rcases List.mem_append.1 hc with hc | hc
        · exact ⟨i, s, List.mem_cons_self _ _, a2 c hc⟩
        · obtain ⟨j, s2, hs2, hcell⟩ := b2 c hc
          exact ⟨j, s2, List.mem_cons_of_mem _ hs2, hcell⟩

theorem clearFlag_fields {s t : Strip} (h : clearFlag s = clearFlag t) :
    s.x = t.x ∧ s.length = t.length ∧ s.m_head = t.m_head ∧ s.max = t.max := by
  have h1 := congrArg Strip.x h
  have h2 := congrArg Strip.length h
  have h3 := congrArg Strip.m_head h
  have h4 := congrArg Strip.max h
  exact ⟨h1, h2, h3, h4⟩

theorem getElem?_of_map_clearFlag {l1 l2 : List Strip}
    (h : l1.map clearFlag = l2.map clearFlag) {i : Nat} {s : Strip} (hs : l1[i]? = some s) :
    ∃ t, l2[i]? = some t ∧ clearFlag t = clearFlag s := by
  have h1 : (l1.map clearFlag)[i]? = (l2.map clearFlag)[i]? := by rw [h]
  rw [List.getElem?_map, List.getElem?_map, hs] at h1
  cases ht : l2[i]? with
  | none => simp [ht] at h1
  | some t =>
    simp only [ht, Option.map_some', Option.some.injEq] at h1
    exact ⟨t, rfl, h1.symm⟩

theorem mem_of_map_clearFlag {l1 l2 : List Strip}
    (h : l1.map clearFlag = l2.map clearFlag) {s : Strip} (hs : s ∈ l1) :
    ∃ t ∈ l2, clearFlag t = clearFlag s := by
  obtain ⟨i, hi⟩ := List.mem_iff_getElem?.1 hs
  obtain ⟨t, ht, he⟩ := getElem?_of_map_clearFlag h hi
  exact ⟨t, List.getElem?_mem ht, he⟩

theorem length_of_map_clearFlag {l1 l2 : List Strip}
    (h : l1.map clearFlag = l2.map clearFlag) : l1.length = l2.length := by
  have := congrArg List.length h
  simpa using this

theorem aboveTail_of_map_clearFlag {l1 l2 : List Strip}
    (h : l1.map clearFlag = l2.map clearFlag) {sp : Spinner} (ha : aboveTail l1 sp) :
    aboveTail l2 sp := by
  obtain ⟨st, hst, hlt⟩ := ha
  obtain ⟨t, ht, he⟩ := getElem?_of_map_clearFlag h hst
  obtain ⟨-, e2, e3, -⟩ := clearFlag_fields he
  exact ⟨t, ht, by rw [e2, e3]; exact hlt⟩

theorem map_clearFlag_set {strips : List Strip} {i : Nat} {s : Strip}
    (hs : strips[i]? = some s) :
    (strips.set i (getHeadPosition s).2).map clearFlag = strips.map clearFlag := by
  apply List.ext_getElem?
  intro j
  rw [List.getElem?_map, List.getElem?_map]
  by_cases hij : i = j
  · subst hij
    have hlt : i < strips.length := by
      by_contra hc
      rw [List.getElem?_eq_none (by omega)] at hs
      exact absurd hs (by simp)
    rw [List.getElem?_set_self hlt, hs]
    rfl
  · rw [List.getElem?_set_ne hij]

theorem spinStep_eq_some {m : Vector2u} {strips : List Strip} {k : Nat} {sp : Spinner}
    {g : Rng} {strips1 : List Strip} {sp1 : Spinner} {ws : List CellWrite} {g1 : Rng}
    (h : spinStep m strips k sp g = some (strips1, sp1, ws, g1)) :
    strips1.map clearFlag = strips.map clearFlag ∧
      (∀ c ∈ ws, c.source = .spinner k ∧ c.row = (sp.row : Int) ∧
        ∃ s ∈ strips, c.column = (s.x : Int)) ∧
      (sp1 = sp ∨ (sp1.row ≤ usub m.y 1 ∧ sp1.strip ≤ usub strips.length 1)) ∧
      (aboveTail strips sp → ws = [] ∧ DrawnFrom m strips.length g sp1) := by
  unfold spinStep at h
  cases hst : strips[sp.strip]? with
  | none => simp [hst] at h
  | some st =>
    simp only [hst] at h
    by_cases ht : toInt32 sp.row < (getHeadPosition st).1.2 - toInt32 st.length
    · simp only [ht, if_true] at h
      cases hr1 : randomValue 0 (usub strips.length 1) g with
      | none => simp [hr1] at h
      | some r1 =>
        obtain ⟨d1, g2⟩ := r1
        have hd1 := randomValue_eq_some hr1
        simp only [hr1, Option.some_bind] at h
        cases hr2 : randomValue 0 (usub m.y 1) g2 with
        | none => simp [hr2] at h
        | some r2 =>
          obtain ⟨d2, g3⟩ := r2
          have hd2 := randomValue_eq_some hr2
          simp only [hr2, Option.some_bind, Option.some.injEq, Prod.mk.injEq] at h
          obtain ⟨e1, e2, e3, -⟩ := h
          subst e1 e2 e3
          refine ⟨map_clearFlag_set hst, fun c hc => by simp at hc,
            Or.inr ⟨hd2.2.2.1, hd1.2.2.1⟩,
            fun _ => ⟨rfl, g2, g3, hr1, hr2⟩⟩
    · have hnot : ¬ aboveTail strips sp := by
        rintro ⟨st2, hst2, hlt⟩
        rw [hst] at hst2
        simp only [Option.some.injEq] at hst2
        subst hst2
        apply ht
        have h1 := toInt32_le sp.row
        have h2 := toInt32_le st.length
        have h3 : (getHeadPosition st).1.2 = st.m_head := rfl
        rw [h3]
        omega
      simp only [ht, if_false] at h
      by_cases ht2 : toInt32 sp.row < (getHeadPosition (getHeadPosition st).2).1.2
      · simp only [ht2, if_true] at h
        cases hr : getRandomChar g with
        | none => simp [hr] at h
        | some r =>
          simp only [hr, Option.some_bind, Option.some.injEq, Prod.mk.injEq] at h
          obtain ⟨e1, e2, e3, -⟩ := h
          subst e1 e2 e3
          refine ⟨map_clearFlag_set hst, ?_, Or.inl rfl, fun ha => absurd ha hnot⟩
          intro c hc
          simp only [List.mem_singleton] at hc
          subst hc
          exact ⟨rfl, rfl, st, List.getElem?_mem hst, rfl⟩
      · simp only [ht2, if_false, Option.some.injEq, Prod.mk.injEq] at h
        obtain ⟨e1, e2, e3, -⟩ := h
        subst e1 e2 e3
        exact ⟨map_clearFlag_set hst, fun c hc => by simp at hc, Or.inl rfl,
          fun ha => absurd ha hnot⟩

theorem spinAll_eq_some (m : Vector2u) (sps : List Spinner) :
    ∀ (k : Nat) (strips : List Strip) (g : Rng) (strips1 : List Strip) (sps1 : List Spinner)
      (ws : List CellWrite) (g1 : Rng),
      spinAll m k strips sps g = some (strips1, sps1, ws, g1) →
      strips1.map clearFlag = strips.map clearFlag ∧
        (∀ c ∈ ws, ∃ (i : Nat) (sp : Spinner), k ≤ i ∧ sp ∈ sps ∧ c.source = .spinner i ∧
          c.row = (sp.row : Int) ∧ ∃ s ∈ strips, c.column = (s.x : Int)) ∧
        (∀ sp1 ∈ sps1, sp1 ∈ sps ∨
          (sp1.row ≤ usub m.y 1 ∧ sp1.strip ≤ usub strips.length 1)) ∧
        (∀ (j : Nat) (sp : Spinner), sps[j]? = some sp → aboveTail strips sp →
          ∃ sp1, sps1[j]? = some sp1 ∧
            (∃ (stripsB : List Strip) (spsB : List Spinner) (wsB : List CellWrite) (ga : Rng),
              spinAll m k strips (sps.take j) g = some (stripsB, spsB, wsB, ga) ∧
                DrawnFrom m strips.length ga sp1) ∧
            ∀ c ∈ ws, c.source ≠ .spinner (k + j)) := by
  induction sps with
  | nil =>
    intro k strips g strips1 sps1 ws g1 h
    simp only [spinAll, Option.some.injEq, Prod.mk.injEq] at h
    obtain ⟨e1, e2, e3, -⟩ := h
    subst e1 e2 e3
    exact ⟨rfl, fun c hc => by simp at hc, fun s hs => by simp at hs,
      fun j sp hj => by simp at hj⟩
  | cons sp0 sps ih =>
    intro k strips g strips1 sps1 ws g1 h
    simp only [spinAll] at h
    cases h0 : spinStep m strips k sp0 g with
    | none => simp [h0] at h
    | some r0 =>
      obtain ⟨strips2, sp2, w0, g2⟩ := r0
      cases h1 : spinAll m (k + 1) strips2 sps g2 with
      | none => simp [h0, h1] at h
      | some r1 =>
        obtain ⟨strips3, sps3, w1, g3⟩ := r1
        simp only [h0, h1, Option.some_bind, Option.some.injEq, Prod.mk.injEq] at h
        obtain ⟨e1, e2, e3, -⟩ := h
        subst e1 e2 e3
        obtain ⟨a1, a2, a3, a4⟩ := spinStep_eq_some h0
        obtain ⟨b1, b2, b3, b4⟩ := ih (k + 1) strips2 g2 strips3 sps3 w1 g3 h1
        have hlen : strips2.length = strips.length := length_of_map_clearFlag a1
        refine ⟨b1.trans a1, ?_, ?_, ?_⟩
        · intro c hc
          rcases List.mem_append.1 hc with hc | hc
          · obtain ⟨c1, c2, c3⟩ := a2 c hc
            exact ⟨k, sp0, le_refl k, List.mem_cons_self _ _, c1, c2, c3⟩
          · obtain ⟨i, sp, c0, c1, c2, c3, s, hs, c4⟩ := b2 c hc
            obtain ⟨t, ht, he⟩ := mem_of_map_clearFlag a1 hs
            refine ⟨i, sp, by omega, List.mem_cons_of_mem _ c1, c2, c3, t, ht, ?_⟩
            rw [c4, (clearFlag_fields he).1]
        · intro sp1 hsp1
          rcases List.mem_cons.1 hsp1 with hsp1 | hsp1
          · subst hsp1
            rcases a3 with a3 | a3
            · exact Or.inl (a3 ▸ List.mem_cons_self _ _)
            · exact Or.inr a3
          · rcases b3 sp1 hsp1 with b | b
            · exact Or.inl (List.mem_cons_of_mem _ b)
            · exact Or.inr (hlen ▸ b)
        · intro j sp hj ha
          cases j with
          | zero =>
            simp only [List.getElem?_cons_zero, Option.some.injEq] at hj
            subst hj
            obtain ⟨c1, c5⟩ := a4 ha
            subst c1
            refine ⟨sp2, by simp, ⟨strips, [], [], g, rfl, c5⟩, ?_⟩
            intro c hc
            simp only [List.nil_append] at hc
            obtain ⟨i, _, c0, _, c6, _⟩ := b2 c hc
            rw [c6]
            intro hcontra
            injection hcontra with hcontra
            omega
          | succ j =>
            simp only [List.getElem?_cons_succ] at hj
            obtain ⟨sp1, c1, ⟨stripsB, spsB, wsB, ga, c2, c5⟩, c4⟩ :=
              b4 j sp hj (aboveTail_of_map_clearFlag a1.symm ha)
            refine ⟨sp1, by simpa using c1,
              ⟨stripsB, sp2 :: spsB, w0 ++ wsB, ga, ?_, hlen ▸ c5⟩, ?_⟩
            · simp only [List.take_succ_cons, spinAll, h0, Option.some_bind, c2]
            · intro c hc
              rcases List.mem_append.1 hc with hc | hc
              · rw [(a2 c hc).1]
                intro hcontra
                injection hcontra with hcontra
                omega
              · have := c4 c hc
                have e : k + 1 + j = k + (j + 1) := by omega
                rwa [e] at this

theorem updateConsoleScreen_eq_some {m : Vector2u} {strips : List Strip}
    {sps : List Spinner} {g : Rng} {strips1 : List Strip} {sps1 : List Spinner}
    {ws : List CellWrite} {g1 : Rng}
    (h : updateConsoleScreen m strips sps g = some (strips1, sps1, ws, g1)) :
    strips1.map clearFlag = strips.map clearFlag ∧
      (∀ c ∈ ws,
        (∃ (j : Nat) (s : Strip), s ∈ strips ∧ StripCell m j (toInt32 s.x) c) ∨
        (∃ (i : Nat) (sp : Spinner), sp ∈ sps ∧ c.source = .spinner i ∧
          c.row = (sp.row : Int) ∧ ∃ s ∈ strips, c.column = (s.x : Int))) ∧
      (∀ sp1 ∈ sps1, sp1 ∈ sps ∨
        (sp1.row ≤ usub m.y 1 ∧ sp1.strip ≤ usub strips.length 1)) ∧
      (∀ (j : Nat) (sp : Spinner), sps[j]? = some sp → aboveTail strips sp →
        ∃ sp1, sps1[j]? = some sp1 ∧ SpinnerDraws m strips sps g j sp1 ∧
          ∀ c ∈ ws, c.source ≠ .spinner j) := by
  unfold updateConsoleScreen at h
  cases h0 : drawStrips m 0 strips g with
  | none => simp [h0] at h
  | some r0 =>
    obtain ⟨strips2, w0, g2⟩ := r0
    cases h1 : spinAll m 0 strips2 sps g2 with
    | none => simp [h0, h1] at h
    | some r1 =>
      obtain ⟨strips3, sps3, w1, g3⟩ := r1
      simp only [h0, h1, Option.some_bind, Option.some.injEq, Prod.mk.injEq] at h
      obtain ⟨e1, e2, e3, -⟩ := h
      subst e1 e2 e3
      obtain ⟨a1, a2⟩ := drawStrips_eq_some m strips 0 g strips2 w0 g2 h0
      obtain ⟨b1, b2, b3, b4⟩ := spinAll_eq_some m sps 0 strips2 g2 strips3 sps3 w1 g3 h1
      have hlen : strips2.length = strips.length := length_of_map_clearFlag a1
      refine ⟨b1.trans a1, ?_, ?_, ?_⟩
      · intro c hc
        rcases List.mem_append.1 hc with hc | hc
        · exact Or.inl (a2 c hc)
        · obtain ⟨i, sp, -, c1, c2, c3, s, hs, c4⟩ := b2 c hc
          obtain ⟨t, ht, he⟩ := mem_of_map_clearFlag a1 hs
          exact Or.inr ⟨i, sp, c1, c2, c3, t, ht, by rw [c4, (clearFlag_fields he).1]⟩
      · intro sp1 hsp1
        rcases b3 sp1 hsp1 with b | b
        · exact Or.inl b
        · exact Or.inr (hlen ▸ b)
      · intro j sp hj ha
        obtain ⟨sp1, c1, ⟨stripsB, spsB, wsB, ga, c2, c5⟩, c4⟩ :=
          b4 j sp hj (aboveTail_of_map_clearFlag a1.symm ha)
        refine ⟨sp1, c1, ⟨strips2, w0, g2, stripsB, spsB, wsB, ga, h0, c2, hlen ▸ c5⟩, ?_⟩
        intro c hc
        rcases List.mem_append.1 hc with hc | hc
        · obtain ⟨i, s, -, hcell⟩ := a2 c hc
          rw [hcell.1]
          intro hcontra
          cases hcontra
        · have := c4 c hc
          rwa [Nat.zero_add] at this

/-! ## The program: lemmas -/

theorem stripOk_of_clearFlag {s t : Strip} (h : clearFlag s = clearFlag t) (ht : StripOk t) :
    StripOk s := by
  obtain ⟨e1, -, -, e4⟩ := clearFlag_fields h
  exact ⟨e4.trans ht.1, e1 ▸ ht.2⟩

theorem priv_spawn_stripOk {strips : List Strip} {self : Option Nat} {me : Strip} {head : Int}
    {g : Rng} {me1 : Strip} {g1 : Rng} (h : priv_spawn strips self me head g = some (me1, g1))
    (hmax : me.max = ⟨73, 49⟩) : StripOk me1 := by
  obtain ⟨-, -, c3, c4, -⟩ := priv_spawn_spec h
  refine ⟨c4.trans hmax, ?_⟩
  rw [hmax] at c3
  exact c3

theorem update_stripOk {strips : List Strip} {self : Option Nat} {me : Strip} {dt : ℚ}
    {g : Rng} {me1 : Strip} {g1 : Rng} (h : update strips self me dt g = some (me1, g1))
    (hme : StripOk me) : StripOk me1 := by
  obtain ⟨y1, -, hcase⟩ := update_eq_some h
  rcases hcase with ⟨-, -, e⟩ | ⟨-, me0, hs, e⟩
  · obtain ⟨b1, -, -, -, b5, -⟩ := priv_updateHead_eq_some e
    exact ⟨b5.trans hme.1, b1 ▸ hme.2⟩
  · obtain ⟨b1, -, -, -, b5, -⟩ := priv_updateHead_eq_some e
    have h0 : StripOk me0 := priv_spawn_stripOk hs hme.1
    exact ⟨b5.trans h0.1, b1 ▸ h0.2⟩

theorem updateFrom_stripOk (dt : ℚ) (n : Nat) :
    ∀ (i : Nat) (strips : List Strip) (g : Rng) (strips1 : List Strip) (g1 : Rng),
      updateFrom dt n i strips g = some (strips1, g1) → (∀ s ∈ strips, StripOk s) →
      (∀ s ∈ strips1, StripOk s) ∧ strips1.length = strips.length := by
  induction n with
  | zero =>
    intro i strips g strips1 g1 h hok
    simp only [updateFrom, Option.some.injEq, Prod.mk.injEq] at h
    obtain ⟨e1, -⟩ := h
    subst e1
    exact ⟨hok, rfl⟩
  | succ n ih =>
    intro i strips g strips1 g1 h hok
    simp only [updateFrom] at h
    cases hi : strips[i]? with
    | none =>
      simp only [hi, Option.some.injEq, Prod.mk.injEq] at h
      obtain ⟨e1, -⟩ := h
      subst e1
      exact ⟨hok, rfl⟩
    | some me =>
      simp only [hi] at h
      cases hu : update strips (some i) me dt g with
      | none => simp [hu] at h
      | some r =>
        obtain ⟨me1, g2⟩ := r
        simp only [hu, Option.some_bind] at h
        have hme1 : StripOk me1 := update_stripOk hu (hok me (List.getElem?_mem hi))
        have hok2 : ∀ s ∈ strips.set i me1, StripOk s := by
          intro s hs
          rcases List.mem_or_eq_of_mem_set hs with hs | hs
          · exact hok s hs
          · exact hs ▸ hme1
        obtain ⟨a1, a2⟩ := ih (i + 1) _ g2 strips1 g1 h hok2
        exact ⟨a1, by rw [a2, List.length_set]⟩

theorem buildStrips_stripOk (n : Nat) :
    ∀ (hs : Nat) (strips : List Strip) (g : Rng) (strips1 : List Strip) (g1 : Rng),
      buildStrips n hs strips g = some (strips1, g1) → (∀ s ∈ strips, StripOk s) →
      (∀ s ∈ strips1, StripOk s) ∧ strips1.length = strips.length + n := by
  induction n with
  | zero =>
    intro hs strips g strips1 g1 h hok
    simp only [buildStrips, Option.some.injEq, Prod.mk.injEq] at h
    obtain ⟨e1, -⟩ := h
    subst e1
    exact ⟨hok, rfl⟩
  | succ n ih =>
    intro hs strips g strips1 g1 h hok
    simp only [buildStrips] at h
    cases hn : Strip.new strips ⟨usub mode.x 1, usub mode.y 1⟩
        (toInt32 (usub (2 ^ 32 - 1) (uadd hs 3))) g with
    | none =>
      simp only [hn, Option.none_bind] at h
      exact absurd h (by simp)
    | some r =>
      obtain ⟨s0, g2⟩ := r
      simp only [hn, Option.some_bind] at h
      have hmax : (⟨usub mode.x 1, usub mode.y 1⟩ : Vector2u) = ⟨73, 49⟩ := by decide
      have hs0 : StripOk s0 := priv_spawn_stripOk hn hmax
      have hok2 : ∀ s ∈ strips ++ [s0], StripOk s := by
        intro s hs
        rcases List.mem_append.1 hs with hs | hs
        · exact hok s hs
        · simp only [List.mem_singleton] at hs
          exact hs ▸ hs0
      obtain ⟨a1, a2⟩ := ih _ _ g2 strips1 g1 h hok2
      refine ⟨a1, ?_⟩
      rw [a2, List.length_append, List.length_singleton]
      omega

theorem buildSpinners_bounds (strips : List Strip) (n : Nat) :
    ∀ (g : Rng) (sps : List Spinner) (g1 : Rng), buildSpinners strips n g = some (sps, g1) →
      ∀ sp ∈ sps, sp.row ≤ usub mode.y 1 ∧ sp.strip ≤ usub strips.length 1 := by
  induction n with
  | zero =>
    intro g sps g1 h
    simp only [buildSpinners, Option.some.injEq, Prod.mk.injEq] at h
    obtain ⟨e1, -⟩ := h
    subst e1
    intro sp hsp
    simp at hsp
  | succ n ih =>
    intro g sps g1 h
    simp only [buildSpinners] at h
    cases h1 : randomValue 0 (usub mode.y 1) g with
    | none => simp [h1] at h
    | some r1 =>
      obtain ⟨d1, g2⟩ := r1
      cases h2 : randomValue 0 (usub strips.length 1) g2 with
      | none => simp [h1, h2] at h
      | some r2 =>
        obtain ⟨d2, g3⟩ := r2
        cases h3 : buildSpinners strips n g3 with
        | none => simp [h1, h2, h3] at h
        | some r3 =>
          obtain ⟨sps3, g4⟩ := r3
          simp only [h1, h2, h3, Option.some_bind, Option.some.injEq, Prod.mk.injEq] at h
          obtain ⟨e1, -⟩ := h
          subst e1
          intro sp hsp
          rcases List.mem_cons.1 hsp with hsp | hsp
          · subst hsp
            exact ⟨(randomValue_eq_some h1).2.2.1, (randomValue_eq_some h2).2.2.1⟩
          · exact ih g3 sps3 g4 h3 sp hsp

theorem populate_worldOk {g : Rng} {w : World} {g1 : Rng}
    (h : populate g = some (w, g1)) : WorldOk w := by
  unfold populate at h
  cases h1 : buildStrips numberOfStrips 0 [] g with
  | none => simp [h1] at h
  | some r1 =>
    obtain ⟨strips, g2⟩ := r1
    cases h2 : buildSpinners strips numberOfSpinners g2 with
    | none => simp [h1, h2] at h
    | some r2 =>
      obtain ⟨sps, g3⟩ := r2
      simp only [h1, h2, Option.some_bind, Option.some.injEq, Prod.mk.injEq] at h
      obtain ⟨e1, -⟩ := h
      subst e1
      obtain ⟨a1, a2⟩ := buildStrips_stripOk _ 0 [] g strips g2 h1 (fun s hs => by simp at hs)
      have hlen : strips.length = 74 := by simpa [numberOfStrips] using a2
      refine ⟨a1, by simpa [numberOfStrips] using hlen, ?_⟩
      intro sp hsp
      have := buildSpinners_bounds strips _ g2 sps g3 h2 sp hsp
      rw [hlen] at this
      have e1 : usub mode.y 1 = 49 := by decide
      have e2 : usub 74 1 = 73 := by decide
      rw [e1, e2] at this
      exact this

theorem frame_worldOk {dt : ℚ} {w : World} {g : Rng} {w1 : World} {ws : List CellWrite}
    {g1 : Rng} (h : frame dt w g = some (w1, ws, g1)) (hw : WorldOk w) :
    WorldOk w1 ∧ ∀ c ∈ ws, InGrid c := by
  unfold frame at h
  cases h1 : updateStrips dt w.strips g with
  | none => simp [h1] at h
  | some r1 =>
    obtain ⟨strips2, g2⟩ := r1
    cases h2 : updateConsoleScreen mode strips2 w.spinners g2 with
    | none => simp [h1, h2] at h
    | some r2 =>
      obtain ⟨strips3, sps3, ws3, g3⟩ := r2
      simp only [h1, h2, Option.some_bind, Option.some.injEq, Prod.mk.injEq] at h
      obtain ⟨e1, e2, -⟩ := h
      subst e1 e2
      obtain ⟨hok, hlen, hsp⟩ := hw
      obtain ⟨a1, a2⟩ := updateFrom_stripOk dt _ 0 w.strips g strips2 g2 h1 hok
      obtain ⟨b1, b2, b3, -⟩ := updateConsoleScreen_eq_some h2
      have hlen2 : strips2.length = 74 := by rw [a2, hlen]; rfl
      have hrows : toInt32 mode.y = 50 := by decide
      refine ⟨⟨?_, ?_, ?_⟩, ?_⟩
      · intro s hs
        obtain ⟨t, ht, he⟩ := mem_of_map_clearFlag b1 hs
        exact stripOk_of_clearFlag he.symm (a1 t ht)
      · rw [length_of_map_clearFlag b1, hlen2]
        rfl
      · intro sp1 hsp1
        rcases b3 sp1 hsp1 with b | b
        · exact hsp sp1 b
        · rw [hlen2] at b
          have e1 : usub mode.y 1 = 49 := by decide
          have e2 : usub 74 1 = 73 := by decide
          rw [e1, e2] at b
          exact b
      · intro c hc
        rcases b2 c hc with ⟨j, s, hs, -, c2, c3, c4⟩ | ⟨i, sp, hsp1, -, c2, s, hs, c3⟩
        · have hx := (a1 s hs).2
          have e := toInt32_of_lt (n := s.x) (by omega)
          rw [hrows] at c4
          refine ⟨?_, ?_, c3, c4⟩ <;> rw [c2, e] <;> omega
        · have hx := (a1 s hs).2
          have hr := (hsp sp hsp1).1
          refine ⟨?_, ?_, ?_, ?_⟩
          · rw [c3]; omega
          · rw [c3]; omega
          · rw [c2]; omega
          · rw [c2]; omega

theorem runFrames_worldOk (dts : List ℚ) :
    ∀ (w : World) (g : Rng) (w1 : World) (ws : List CellWrite) (g1 : Rng),
      runFrames dts w g = some (w1, ws, g1) → WorldOk w →
      WorldOk w1 ∧ ∀ c ∈ ws, InGrid c := by
  induction dts with
  | nil =>
    intro w g w1 ws g1 h hw
    simp only [runFrames, Option.some.injEq, Prod.mk.injEq] at h
    obtain ⟨e1, e2, -⟩ := h
    subst e1 e2
    exact ⟨hw, fun c hc => by simp at hc⟩
  | cons dt dts ih =>
    intro w g w1 ws g1 h hw
    simp only [runFrames] at h
    cases h1 : frame dt w g with
    | none => simp [h1] at h
    | some r1 =>
      obtain ⟨w2, ws2, g2⟩ := r1
      cases h2 : runFrames dts w2 g2 with
      | none => simp [h1, h2] at h
      | some r2 =>
        obtain ⟨w3, ws3, g3⟩ := r2
        simp only [h1, h2, Option.some_bind, Option.some.injEq, Prod.mk.injEq] at h
        obtain ⟨e1, e2, -⟩ := h
        subst e1 e2
        obtain ⟨a1, a2⟩ := frame_worldOk h1 hw
        obtain ⟨b1, b2⟩ := ih w2 g2 w3 ws3 g3 h2 a1
        refine ⟨b1, ?_⟩
        intro c hc
        rcases List.mem_append.1 hc with hc | hc
        · exact a2 c hc
        · exact b2 c hc

theorem program_returns_of_count (dts : List ℚ) (g : Rng) (n : Nat)
    (h : (program dts g).map (fun r => r.2.1.length) = some n) :
    ∃ (w : World) (ws : List CellWrite) (g1 : Rng),
      program dts g = some (w, ws, g1) ∧ ws.length = n := by
  cases hp : program dts g with
  | none => simp [hp] at h
  | some r =>
    obtain ⟨w, ws, g1⟩ := r
    exact ⟨w, ws, g1, rfl, by simpa [hp] using h⟩

set_option maxRecDepth 100000 in
theorem program_returns_sample :
    ∃ (w : World) (ws : List CellWrite) (g1 : Rng),
      program [1 / 8] sampleRng = some (w, ws, g1) ∧ ws.length = 2 :=
  program_returns_of_count [1 / 8] sampleRng 2 (by decide!)

/-! ## Claims -/

/-- C1: after a spawn that returns, every strip of the vector the spawn was given, as the
accepting iteration of its loop sees that vector, whose column is the column chosen has
either a greater speed than the new strip or its tail and extension wholly below the new
strip's position. This holds of every other strip of the vector, and the spawning strip
itself, when it is in the vector, is never given the column it had. -/
theorem priv_spawn_no_overlap (strips : List Strip) (self : Option Nat) (me : Strip)
    (head : Int) (g : Rng) (me1 : Strip) (g1 : Rng)
    (h : priv_spawn strips self me head g = some (me1, g1)) :
    (∀ s ∈ view strips self { me1 with x := me.x }, s.x = me1.x →
        me1.speed < s.speed ∨ me1.y < s.y - s.length - tailExtensionLength) ∧
      (∀ (j : Nat) (s : Strip), strips[j]? = some s → self ≠ some j → s.x = me1.x →
        me1.speed < s.speed ∨ me1.y < s.y - s.length - tailExtensionLength) ∧
      (∀ j : Nat, self = some j → j < strips.length → me1.x ≠ me.x) := by
  have hfree := (priv_spawn_spec h).2.2.2.2.2.2.2
  have key : ∀ s ∈ view strips self { me1 with x := me.x }, s.x = me1.x →
      me1.speed < s.speed := fun s hs hx => ((columnTaken_eq_some hfree).2 rfl s hs hx).1
  refine ⟨fun s hs hx => Or.inl (key s hs hx), ?_, ?_⟩
  · intro j s hj hself hx
    refine Or.inl (key s ?_ hx)
    cases self with
    | none => exact List.getElem?_mem hj
    | some i =>
      have hij : i ≠ j := fun e => hself (by rw [e])
      have hv : (view strips (some i) { me1 with x := me.x })[j]? = some s := by
        simp only [view]
        rw [List.getElem?_set_ne hij]
        exact hj
      exact List.getElem?_mem hv
  · intro j hself hj hx
    subst hself
    have hmem : ({ me1 with x := me.x } : Strip) ∈ view strips (some j) { me1 with x := me.x } := by
      have hv : (view strips (some j) { me1 with x := me.x })[j]?
          = some { me1 with x := me.x } := by
        simp only [view]
        rw [List.getElem?_set_self hj]
      exact List.getElem?_mem hv
    have := key _ hmem hx.symm
    exact lt_irrefl _ this

theorem priv_spawn_no_overlap_witness :
    priv_spawn [⟨0, 40, 10, 30, false, ⟨73, 49⟩, 40⟩] none
        ⟨5, 0, 0, 0, false, ⟨73, 49⟩, -1⟩ 0 ⟨[12, 7, 0], [20]⟩
      = some (⟨0, -8, 12, 20, false, ⟨73, 49⟩, -1⟩, ⟨[], []⟩) ∧
    ((20 : ℚ) < 30 ∨ (-8 : ℚ) < 40 - (10 : Nat) - tailExtensionLength) :=
  ⟨by decide!,
    (priv_spawn_no_overlap [⟨0, 40, 10, 30, false, ⟨73, 49⟩, 40⟩] none
      ⟨5, 0, 0, 0, false, ⟨73, 49⟩, -1⟩ 0 ⟨[12, 7, 0], [20]⟩
      ⟨0, -8, 12, 20, false, ⟨73, 49⟩, -1⟩ ⟨[], []⟩ (by decide!)).1
      ⟨0, 40, 10, 30, false, ⟨73, 49⟩, 40⟩ (by simp [view]) rfl⟩

/-- C2: whatever the frame times and the outcomes of the draws, when the program of `main`
(grid of 74 columns and 50 rows, 74 strips built with the maximum `(73, 49)`, 100 spinners)
has run its frames, every strip's column is in `[0, 73]`, and every cell streamed by the
calls of `updateConsoleScreen` (head, head fade, tail fade, tail erase and spinner glyph)
has its column in `[0, 73]` and its row in `[0, 50)`. -/
theorem program_in_grid (dts : List ℚ) (g : Rng) (w : World) (ws : List CellWrite) (g1 : Rng)
    (h : program dts g = some (w, ws, g1)) :
    (∀ s ∈ w.strips, 0 ≤ s.x ∧ s.x ≤ 73) ∧
      ∀ c ∈ ws, (0 ≤ c.column ∧ c.column ≤ 73) ∧ (0 ≤ c.row ∧ c.row < 50) := by
  unfold program at h
  cases h1 : populate g with
  | none => simp [h1] at h
  | some r1 =>
    obtain ⟨w0, g0⟩ := r1
    simp only [h1, Option.some_bind] at h
    obtain ⟨a1, a2⟩ := runFrames_worldOk dts w0 g0 w ws g1 h (populate_worldOk h1)
    exact ⟨fun s hs => ⟨Nat.zero_le _, (a1.1 s hs).2⟩,
      fun c hc => ⟨⟨(a2 c hc).1, (a2 c hc).2.1⟩, (a2 c hc).2.2⟩⟩

theorem program_in_grid_witness :
    ∃ (w : World) (ws : List CellWrite) (g1 : Rng),
      program [1 / 8] sampleRng = some (w, ws, g1) ∧ ws.length = 2 ∧
      ((∀ s ∈ w.strips, 0 ≤ s.x ∧ s.x ≤ 73) ∧
        ∀ c ∈ ws, (0 ≤ c.column ∧ c.column ≤ 73) ∧ (0 ≤ c.row ∧ c.row < 50)) :=
  match program_returns_sample with
  | ⟨w, ws, g1, hr, hlen⟩ =>
    ⟨w, ws, g1, hr, hlen, program_in_grid [1 / 8] sampleRng w ws g1 hr⟩

/-- C3, as the code has it: after an `update` that returns, on the path that respawns as on
the other, the head row stored is the position converted to `int`, which is the position
truncated towards zero and is defined, and `headNeedsUpdating` is true exactly when that
row differs from the head row stored before the call, false exactly when it is the same;
`getHeadPosition` returns the column converted to `int`, which is the column when the
column is below `2^31`, and the head row, and leaves the strip as it was but for
`headNeedsUpdating`, which is false. -/
theorem update_headNeedsUpdating (strips : List Strip) (self : Option Nat) (me : Strip)
    (dt : ℚ) (g : Rng) (me1 : Strip) (g1 : Rng)
    (h : update strips self me dt g = some (me1, g1)) :
    (floatToInt me1.y = some me1.m_head ∧ me1.m_head = truncToInt me1.y ∧
        (me1.headNeedsUpdating = true ↔ truncToInt me1.y ≠ me.m_head) ∧
        (me1.headNeedsUpdating = false ↔ truncToInt me1.y = me.m_head)) ∧
      ∀ s : Strip, (getHeadPosition s).1 = (toInt32 s.x, s.m_head) ∧
        (s.x < 2 ^ 31 → (getHeadPosition s).1 = ((s.x : Int), s.m_head)) ∧
        (getHeadPosition s).2.headNeedsUpdating = false ∧
        (getHeadPosition s).2 = { s with headNeedsUpdating := false } := by
  refine ⟨?_, fun s => ⟨rfl, fun hx => ?_, rfl, rfl⟩⟩
  · have key : ∀ m0 : Strip, m0.m_head = me.m_head → priv_updateHead m0 = some me1 →
        floatToInt me1.y = some me1.m_head ∧ me1.m_head = truncToInt me1.y ∧
          (me1.headNeedsUpdating = true ↔ truncToInt me1.y ≠ me.m_head) ∧
          (me1.headNeedsUpdating = false ↔ truncToInt me1.y = me.m_head) := by
      intro m0 hm hu
      obtain ⟨-, b2, -, -, -, b6, b7⟩ := priv_updateHead_eq_some hu
      rw [← b2] at b6
      have e := (floatToInt_eq_some b6).1
      rw [hm, e] at b7
      refine ⟨b6, e, b7, ?_⟩
      rw [← not_iff_not, Bool.not_eq_false, b7]
    obtain ⟨y1, -, hcase⟩ := update_eq_some h
    rcases hcase with ⟨-, -, hu⟩ | ⟨-, me0, hs, hu⟩
    · exact key { me with y := y1 } rfl hu
    · exact key me0 ((priv_spawn_spec hs).2.2.2.2.2.2.1 (le_refl 0)).1 hu
  · show (toInt32 s.x, s.m_head) = ((s.x : Int), s.m_head)
    rw [toInt32_of_lt hx]

theorem update_headNeedsUpdating_witness :
    update [] none ⟨3, 5 / 2, 12, 20, false, ⟨73, 49⟩, 2⟩ (1 / 8) ⟨[], []⟩
      = some (⟨3, 5, 12, 20, true, ⟨73, 49⟩, 5⟩, ⟨[], []⟩) ∧
    ((floatToInt 5 = some 5 ∧ (5 : Int) = truncToInt 5 ∧
        (true = true ↔ truncToInt 5 ≠ 2) ∧ (true = false ↔ truncToInt 5 = 2)) ∧
      ∀ s : Strip, (getHeadPosition s).1 = (toInt32 s.x, s.m_head) ∧
        (s.x < 2 ^ 31 → (getHeadPosition s).1 = ((s.x : Int), s.m_head)) ∧
        (getHeadPosition s).2.headNeedsUpdating = false ∧
        (getHeadPosition s).2 = { s with headNeedsUpdating := false }) :=
  ⟨by decide!,
    update_headNeedsUpdating [] none ⟨3, 5 / 2, 12, 20, false, ⟨73, 49⟩, 2⟩ (1 / 8) ⟨[], []⟩
      ⟨3, 5, 12, 20, true, ⟨73, 49⟩, 5⟩ ⟨[], []⟩ (by decide!)⟩

/-- C3 as stated fails for a strip state the type allows: the column 4294967295 is not
what `getHeadPosition` returns, `static_cast<int>` making it -1; and at the position
3000000000, which no `int` holds, the conversion that recomputes the head row is
undefined, so that `update` has no result of which the flag could be compared. -/
theorem update_headNeedsUpdating_counterexample :
    ((getHeadPosition ⟨4294967295, 0, 10, 10, true, ⟨73, 49⟩, 0⟩).1 = (-1, 0) ∧
        ((-1 : Int), (0 : Int)) ≠ (((4294967295 : Nat) : Int), 0)) ∧
      (advance ⟨0, 3000000000, 10, 10, false, ⟨73, 4294967000⟩, 5⟩ 0 = some 3000000000 ∧
        pastBottom ⟨0, 3000000000, 10, 10, false, ⟨73, 4294967000⟩, 5⟩ = some false ∧
        floatToInt 3000000000 = none ∧
        update [] none ⟨0, 3000000000, 10, 10, false, ⟨73, 4294967000⟩, 5⟩ 0 ⟨[], []⟩
          = none) := by
  refine ⟨⟨by decide, by decide⟩, by decide!, by decide!, by decide!, by decide!⟩

/-- C4, as the code has it: a strip of non-negative speed (every spawn draws the speed from
`[10, 50]`) on a grid small enough for `max.y + length + 2` to be at most `2^24`, so that
the threshold of line 127 is a `float`, whose position is beyond `rows + length + 1`,
`rows = max.y + 1` being the height of the grid, is respawned by one `update` of frame
time `dt ≥ 0` that returns: the advanced position is past the threshold, the strip returned
is the one `priv_spawn` made with its head row recomputed, its length is in
`[minStripLength, maxStripLength]`, its speed in `[minStripSpeed, maxStripSpeed]` and its
position is negative. -/
theorem update_respawns (strips : List Strip) (self : Option Nat) (me : Strip) (dt : ℚ)
    (g : Rng) (me1 : Strip) (g1 : Rng)
    (h : update strips self me dt g = some (me1, g1))
    (hy : me.y > ((me.max.y + 1 : Nat) : ℚ) + (me.length : ℚ) + 1)
    (hdt : 0 ≤ dt) (hspeed : 0 ≤ me.speed) (hsmall : me.max.y + me.length + 2 ≤ 2 ^ 24) :
    (∃ y1 me0, advance me dt = some y1 ∧ pastBottom { me with y := y1 } = some true ∧
        priv_spawn strips self { me with y := y1 } 0 g = some (me0, g1) ∧
        priv_updateHead me0 = some me1) ∧
      (minStripLength ≤ me1.length ∧ me1.length ≤ maxStripLength) ∧
      (minStripSpeed ≤ me1.speed ∧ me1.speed ≤ maxStripSpeed) ∧
      me1.y < 0 := by
  obtain ⟨y1, ha, hcase⟩ := update_eq_some h
  have hN : |((me.max.y + me.length + 2 : Nat) : Int)| ≤ 2 ^ 24 := by
    rw [abs_of_nonneg (Int.natCast_nonneg _)]
    exact_mod_cast hsmall
  have hle : ((((me.max.y + me.length + 2 : Nat) : Int) : Int) : ℚ) ≤ me.y := by
    push_cast at hy ⊢
    linarith
  have hy1 := advance_ge ha hspeed hdt _ hN hle
  have hpast : pastBottom { me with y := y1 } = some true :=
    pastBottom_of_le { me with y := y1 } hsmall (by exact_mod_cast hy1)
  rcases hcase with ⟨hp, -, -⟩ | ⟨-, me0, hs, hu⟩
  · rw [hpast] at hp
    exact absurd hp (by simp)
  · obtain ⟨c1, c2, -, -, -, -, c7, -⟩ := priv_spawn_spec hs
    obtain ⟨-, d, -, -, hd, -⟩ := c7 (le_refl 0)
    obtain ⟨-, b2, b3, b4, -, -, -⟩ := priv_updateHead_eq_some hu
    refine ⟨⟨y1, me0, ha, hpast, hs, hu⟩, ?_, ?_, ?_⟩
    · rw [b3]; exact c1
    · rw [b4]; exact c2
    · rw [b2]
      have := startAbove_le hd
      linarith

theorem update_respawns_witness :
    update [] none ⟨3, 120, 12, 20, false, ⟨73, 49⟩, 119⟩ (1 / 8) ⟨[15, 7, 4], [25]⟩
      = some (⟨4, -8, 15, 25, true, ⟨73, 49⟩, -8⟩, ⟨[], []⟩) ∧
    (120 : ℚ) > ((49 + 1 : Nat) : ℚ) + ((12 : Nat) : ℚ) + 1 ∧ (0 : ℚ) ≤ 1 / 8 ∧ (0 : ℚ) ≤ 20 ∧
    49 + 12 + 2 ≤ 2 ^ 24 ∧
    ((∃ y1 me0, advance ⟨3, 120, 12, 20, false, ⟨73, 49⟩, 119⟩ (1 / 8) = some y1 ∧
        pastBottom { (⟨3, 120, 12, 20, false, ⟨73, 49⟩, 119⟩ : Strip) with y := y1 }
          = some true ∧
        priv_spawn [] none { (⟨3, 120, 12, 20, false, ⟨73, 49⟩, 119⟩ : Strip) with y := y1 } 0
          ⟨[15, 7, 4], [25]⟩ = some (me0, ⟨[], []⟩) ∧
        priv_updateHead me0 = some ⟨4, -8, 15, 25, true, ⟨73, 49⟩, -8⟩) ∧
      (minStripLength ≤ 15 ∧ 15 ≤ maxStripLength) ∧
      (minStripSpeed ≤ 25 ∧ (25 : ℚ) ≤ maxStripSpeed) ∧ (-8 : ℚ) < 0) :=
  ⟨by decide!, by norm_num, by norm_num, by norm_num, by norm_num,
    update_respawns [] none ⟨3, 120, 12, 20, false, ⟨73, 49⟩, 119⟩ (1 / 8) ⟨[15, 7, 4], [25]⟩
      ⟨4, -8, 15, 25, true, ⟨73, 49⟩, -8⟩ ⟨[], []⟩ (by decide!) (by norm_num) (by norm_num)
      (by norm_num) (by norm_num)⟩

/-- C4 as stated fails twice. A strip whose speed is -2000, at the position 100 beyond
`50 + 12 + 1`, is moved up by an `update` of frame time `1/8` and is not respawned: its
speed is still -2000, outside `[10, 50]`. And on a grid of 33554426 rows a strip of length
12 and speed 10 at the position 33554440, beyond `33554426 + 12 + 1`, is not respawned by
an `update` of frame time `1/16`: the threshold 33554438 is not a `float` and is rounded to
33554440, the advanced position 33554440.625 is rounded to 33554440, and the test of line
127 fails; the position stays at 33554440, which is not negative. -/
theorem update_respawns_counterexample :
    ((100 : ℚ) > ((49 + 1 : Nat) : ℚ) + ((12 : Nat) : ℚ) + 1 ∧ (0 : ℚ) ≤ 1 / 8 ∧
        update [] none ⟨3, 100, 12, -2000, false, ⟨73, 49⟩, 100⟩ (1 / 8) ⟨[15, 7, 4], [25]⟩
          = some (⟨3, -150, 12, -2000, true, ⟨73, 49⟩, -150⟩, ⟨[15, 7, 4], [25]⟩) ∧
        ¬ (minStripSpeed ≤ (-2000 : ℚ))) ∧
      ((33554440 : ℚ) > ((33554425 + 1 : Nat) : ℚ) + ((12 : Nat) : ℚ) + 1 ∧ (0 : ℚ) ≤ 1 / 16 ∧
        (0 : ℚ) ≤ 10 ∧ f32Round 33554440 = some 33554440 ∧
        f32Round (1 / 16) = some (1 / 16) ∧
        f32OfNat (uadd (uadd 33554425 12) 1) = some 33554440 ∧
        advance ⟨3, 33554440, 12, 10, false, ⟨73, 33554425⟩, 33554440⟩ (1 / 16)
          = some 33554440 ∧
        update [] none ⟨3, 33554440, 12, 10, false, ⟨73, 33554425⟩, 33554440⟩ (1 / 16)
            ⟨[15, 7, 4], [25]⟩
          = some (⟨3, 33554440, 12, 10, false, ⟨73, 33554425⟩, 33554440⟩, ⟨[15, 7, 4], [25]⟩) ∧
        ¬ ((33554440 : ℚ) < 0)) := by
  refine ⟨⟨by norm_num, by norm_num, by decide!, ?_⟩, by norm_num, by norm_num, by norm_num,
    by decide!, by decide!, by decide!, by decide!, by decide!, by norm_num⟩
  simp only [minStripSpeed]
  norm_num

/-- C5: a spinner whose row is less than the head row minus the length of the strip it
refers to is given a new strip index and a new row by one call of `updateConsoleScreen`
that returns: they are the two values that its iteration of the spinner loop draws, one
after the other, from the generator as the strip loop and the iterations before it leave
it; the row is in `[0, rows - 1]`, where `rows - 1` is computed in `unsigned int` and is
what it reads whenever the screen has a row, the strip index is in
`[0, strips.size () - 1]`, which is `[0, numberOfStrips - 1]` for the strips of `main`, and
no cell streamed by that call comes from that spinner. -/
theorem updateConsoleScreen_retargets (m : Vector2u) (strips : List Strip)
    (sps : List Spinner) (g : Rng) (strips1 : List Strip) (sps1 : List Spinner)
    (ws : List CellWrite) (g1 : Rng)
    (h : updateConsoleScreen m strips sps g = some (strips1, sps1, ws, g1))
    (k : Nat) (sp : Spinner) (st : Strip) (hk : sps[k]? = some sp)
    (hst : strips[sp.strip]? = some st)
    (hrow : (sp.row : Int) < st.m_head - (st.length : Int)) :
    ∃ sp1, sps1[k]? = some sp1 ∧ SpinnerDraws m strips sps g k sp1 ∧
      (sp1.row ≤ usub m.y 1 ∧ (0 < m.y → sp1.row ≤ m.y - 1)) ∧
      (sp1.strip ≤ strips.length - 1 ∧
        (strips.length = numberOfStrips → sp1.strip ≤ numberOfStrips - 1)) ∧
      ∀ c ∈ ws, c.source ≠ .spinner k := by
  obtain ⟨-, -, -, a4⟩ := updateConsoleScreen_eq_some h
  obtain ⟨sp1, c1, c5, c4⟩ := a4 k sp hk ⟨st, hst, hrow⟩
  have c6 := c5
  obtain ⟨_, _, _, _, _, _, _, _, _, gb, gc, d1, d2⟩ := c6
  have c3 := (randomValue_eq_some d1).2.2.1
  have c2 := (randomValue_eq_some d2).2.2.1
  have hpos : 0 < strips.length := by
    by_contra hc
    rw [List.getElem?_eq_none (by omega)] at hst
    exact absurd hst (by simp)
  have h3 : sp1.strip ≤ strips.length - 1 := le_trans c3 (usub_one_le hpos)
  exact ⟨sp1, c1, c5, ⟨c2, fun hrows => le_trans c2 (usub_one_le hrows)⟩,
    ⟨h3, fun e => e ▸ h3⟩, c4⟩

theorem updateConsoleScreen_retargets_witness :
    updateConsoleScreen mode
        [⟨3, 61 / 2, 10, 20, false, ⟨73, 49⟩, 30⟩, ⟨4, 61 / 2, 10, 20, false, ⟨73, 49⟩, 30⟩]
        [⟨5, 0⟩] ⟨[1, 20], []⟩
      = some ([⟨3, 61 / 2, 10, 20, false, ⟨73, 49⟩, 30⟩,
          ⟨4, 61 / 2, 10, 20, false, ⟨73, 49⟩, 30⟩], [⟨20, 1⟩], [], ⟨[], []⟩) ∧
    ((5 : Nat) : Int) < 30 - ((10 : Nat) : Int) ∧
    ∃ sp1, [(⟨20, 1⟩ : Spinner)][0]? = some sp1 ∧
      SpinnerDraws mode [(⟨3, 61 / 2, 10, 20, false, ⟨73, 49⟩, 30⟩ : Strip),
        ⟨4, 61 / 2, 10, 20, false, ⟨73, 49⟩, 30⟩] [⟨5, 0⟩] ⟨[1, 20], []⟩ 0 sp1 ∧
      (sp1.row ≤ usub mode.y 1 ∧ (0 < mode.y → sp1.row ≤ mode.y - 1)) ∧
      (sp1.strip ≤ [(⟨3, 61 / 2, 10, 20, false, ⟨73, 49⟩, 30⟩ : Strip),
          ⟨4, 61 / 2, 10, 20, false, ⟨73, 49⟩, 30⟩].length - 1 ∧
        ([(⟨3, 61 / 2, 10, 20, false, ⟨73, 49⟩, 30⟩ : Strip),
          ⟨4, 61 / 2, 10, 20, false, ⟨73, 49⟩, 30⟩].length = numberOfStrips →
            sp1.strip ≤ numberOfStrips - 1)) ∧
      ∀ c ∈ ([] : List CellWrite), c.source ≠ .spinner 0 :=
  ⟨by decide!, by decide,
    updateConsoleScreen_retargets mode
      [⟨3, 61 / 2, 10, 20, false, ⟨73, 49⟩, 30⟩, ⟨4, 61 / 2, 10, 20, false, ⟨73, 49⟩, 30⟩]
      [⟨5, 0⟩] ⟨[1, 20], []⟩
      [⟨3, 61 / 2, 10, 20, false, ⟨73, 49⟩, 30⟩, ⟨4, 61 / 2, 10, 20, false, ⟨73, 49⟩, 30⟩]
      [⟨20, 1⟩] [] ⟨[], []⟩ (by decide!) 0 ⟨5, 0⟩ ⟨3, 61 / 2, 10, 20, false, ⟨73, 49⟩, 30⟩
      (by decide) (by decide!) (by decide)⟩

/-- C6: after a spawn that returns, whatever the strips given, the grid maximum and the
initial head, the length is in `[minStripLength, maxStripLength] = [10, 75]` and the speed
in `[minStripSpeed, maxStripSpeed] = [10, 50]`. -/
theorem priv_spawn_length_speed (strips : List Strip) (self : Option Nat) (me : Strip)
    (head : Int) (g : Rng) (me1 : Strip) (g1 : Rng)
    (h : priv_spawn strips self me head g = some (me1, g1)) :
    (10 ≤ me1.length ∧ me1.length ≤ 75) ∧ ((10 : ℚ) ≤ me1.speed ∧ me1.speed ≤ 50) ∧
      (minStripLength ≤ me1.length ∧ me1.length ≤ maxStripLength) ∧
      (minStripSpeed ≤ me1.speed ∧ me1.speed ≤ maxStripSpeed) := by
  obtain ⟨c1, c2, -⟩ := priv_spawn_spec h
  exact ⟨c1, c2, c1, c2⟩

theorem priv_spawn_length_speed_witness :
    Strip.new [] ⟨73, 49⟩ (-4) ⟨[75, 0], [10]⟩
      = some (⟨0, -5, 75, 10, false, ⟨73, 49⟩, -4⟩, ⟨[], []⟩) ∧
    ((10 ≤ 75 ∧ 75 ≤ 75) ∧ ((10 : ℚ) ≤ 10 ∧ (10 : ℚ) ≤ 50) ∧
      (minStripLength ≤ 75 ∧ 75 ≤ maxStripLength) ∧
      (minStripSpeed ≤ 10 ∧ (10 : ℚ) ≤ maxStripSpeed)) :=
  ⟨by decide!,
    priv_spawn_length_speed [] none ⟨0, 0, 0, 0, false, ⟨73, 49⟩, -1⟩ (-4) ⟨[75, 0], [10]⟩
      ⟨0, -5, 75, 10, false, ⟨73, 49⟩, -4⟩ ⟨[], []⟩ (by decide!)⟩

/-- C7, as the code has it: the blend of two colours is the first at 0 and the second at 1;
for `0 ≤ a ≤ b ≤ 1` every channel of the blend is defined, and is monotonic from the first
colour to the second up to one unit: when `A.c ≤ B.c` the channel at `a` is at most the
channel at `b` plus one, and when `B.c ≤ A.c` the channel at `b` is at most the channel at
`a` plus one. Each channel is `start * (1 - alpha) + end * alpha` in binary32, truncated. -/
theorem linearInterpolation_endpoints_near_monotone (A B : Color) (a b : ℚ) (h0 : 0 ≤ a)
    (hab : a ≤ b) (h1 : b ≤ 1) :
    linearInterpolationColor A B 0 = some A ∧ linearInterpolationColor A B 1 = some B ∧
      ∃ Ca Cb : Color, linearInterpolationColor A B a = some Ca ∧
        linearInterpolationColor A B b = some Cb ∧
        TowardsWithinOne A.r B.r Ca.r Cb.r ∧ TowardsWithinOne A.g B.g Ca.g Cb.g ∧
        TowardsWithinOne A.b B.b Ca.b Cb.b ∧ TowardsWithinOne A.a B.a Ca.a Cb.a := by
  refine ⟨?_, ?_, ?_⟩
  · simp only [linearInterpolationColor, linearInterpolation_zero, Option.some_bind]
  · simp only [linearInterpolationColor, linearInterpolation_one, Option.some_bind]
  · obtain ⟨ra, rb, r1, r2, r3, r4⟩ := linearInterpolation_near_monotone A.r B.r h0 hab h1
    obtain ⟨ga, gb, g1, g2, g3, g4⟩ := linearInterpolation_near_monotone A.g B.g h0 hab h1
    obtain ⟨ba, bb, b1, b2, b3, b4⟩ := linearInterpolation_near_monotone A.b B.b h0 hab h1
    obtain ⟨aa, ab, a1, a2, a3, a4⟩ := linearInterpolation_near_monotone A.a B.a h0 hab h1
    refine ⟨⟨ra, ga, ba, aa⟩, ⟨rb, gb, bb, ab⟩, ?_, ?_, ⟨r3, r4⟩, ⟨g3, g4⟩, ⟨b3, b4⟩, ⟨a3, a4⟩⟩
    · simp only [linearInterpolationColor, r1, g1, b1, a1, Option.some_bind]
    · simp only [linearInterpolationColor, r2, g2, b2, a2, Option.some_bind]

theorem linearInterpolation_endpoints_near_monotone_witness :
    (0 : ℚ) ≤ 1 / 4 ∧ (1 / 4 : ℚ) ≤ 3 / 4 ∧ (3 / 4 : ℚ) ≤ 1 ∧
      (linearInterpolationColor backgroundColor baseColor 0 = some backgroundColor ∧
        linearInterpolationColor backgroundColor baseColor 1 = some baseColor ∧
        ∃ Ca Cb : Color, linearInterpolationColor backgroundColor baseColor (1 / 4) = some Ca ∧
          linearInterpolationColor backgroundColor baseColor (3 / 4) = some Cb ∧
          TowardsWithinOne backgroundColor.r baseColor.r Ca.r Cb.r ∧
          TowardsWithinOne backgroundColor.g baseColor.g Ca.g Cb.g ∧
          TowardsWithinOne backgroundColor.b baseColor.b Ca.b Cb.b ∧
          TowardsWithinOne backgroundColor.a baseColor.a Ca.a Cb.a) :=
  ⟨by norm_num, by norm_num, by norm_num,
    linearInterpolation_endpoints_near_monotone backgroundColor baseColor (1 / 4) (3 / 4)
      (by norm_num) (by norm_num) (by norm_num)⟩

/-- C7 as stated fails: from black to black the alpha channel goes from 255 to 255, and it
is 255 at `alpha = 0` but 254 at `alpha = 11184811 / 2^25`, the binary32 number nearest to
one third: `1.f - alpha` rounds to `11184810 / 2^24`, `255 * (1.f - alpha)` to
`170 - 2^-16`, `255 * alpha` to 85, and their sum `255 - 2^-16` truncates to 254. -/
theorem linearInterpolation_monotone_counterexample :
    ((0 : ℚ) ≤ 0 ∧ (0 : ℚ) ≤ 11184811 / 33554432 ∧ (11184811 / 33554432 : ℚ) ≤ 1) ∧
      f32Round (11184811 / 33554432) = some (11184811 / 33554432) ∧
      backgroundColor.a ≤ backgroundColor.a ∧
      linearInterpolationColor backgroundColor backgroundColor 0 = some ⟨0, 0, 0, 255⟩ ∧
      linearInterpolationColor backgroundColor backgroundColor (11184811 / 33554432)
        = some ⟨0, 0, 0, 254⟩ ∧
      ¬ ((255 : Fin 256) ≤ 254) := by
  refine ⟨⟨by norm_num, by norm_num, by norm_num⟩, by decide!, by decide, ?_, by decide!,
    by decide⟩
  simp only [linearInterpolationColor, linearInterpolation_zero, Option.some_bind]
  rfl

/-- C8: whenever `getRandomChar` returns, the value returned is in `[0, 54]`, is not 19,
and is the first outcome of the sequence of draws that differs from 19: the outcomes before
it are all 19 and the outcomes after it are left for the draws to come. -/
theorem getRandomChar_first_not_19 (g : Rng) (c : Nat) (g1 : Rng)
    (h : getRandomChar g = some (c, g1)) :
    c ≤ 54 ∧ c ≠ 19 ∧ ∃ n, g.ints = List.replicate n 19 ++ c :: g1.ints := by
  obtain ⟨h1, h2, _, h4⟩ := getRandomCharLoop_eq_some _ g c g1 h
  exact ⟨h1, h2, h4⟩

theorem getRandomChar_first_not_19_witness :
    getRandomChar ⟨[19, 19, 7, 19, 3], []⟩ = some (7, ⟨[19, 3], []⟩) ∧
      (7 ≤ 54 ∧ 7 ≠ 19 ∧ ∃ n, [19, 19, 7, 19, 3] = List.replicate n 19 ++ 7 :: [19, 3]) :=
  ⟨by decide, getRandomChar_first_not_19 ⟨[19, 19, 7, 19, 3], []⟩ 7 ⟨[19, 3], []⟩ (by decide)⟩

/-- C9, as the code has it: a candidate is rejected exactly when some strip of the vector
has its column and is not faster than the candidate OR has the candidate's position within
its tail and extension, `speed ≥ s.speed ∨ y ≥ s.y - s.length - tailExtensionLength`, the
right-hand side being what the two `float` subtractions give (`tailEnd`) and being
evaluated only for a strip that is faster. A rejected candidate makes the loop draw again,
a candidate that is not rejected ends the loop, the test has a result whenever the
subtractions are finite for every strip, and the speed and column of the strip a spawn
returns are those of a candidate that was not rejected. -/
theorem spawn_rejects_iff (strips : List Strip) (self : Option Nat) (me : Strip) (fuel : Nat)
    (g g1 g2 : Rng) (speed : ℚ) (column : Nat)
    (hspeed : randomValueFloat minStripSpeed maxStripSpeed g = some (speed, g1))
    (hcolumn : randomValue 0 me.max.x g1 = some (column, g2)) :
    (∀ b : Bool,
        columnTaken (view strips self { me with speed := speed }) column speed me.y = some b →
        (b = true ↔ ∃ s ∈ view strips self { me with speed := speed }, s.x = column ∧
          (speed ≥ s.speed ∨ ∃ t, tailEnd s = some t ∧ me.y ≥ t))) ∧
      (columnTaken (view strips self { me with speed := speed }) column speed me.y
          = some true →
        spawnLoop strips self (fuel + 1) me g
          = spawnLoop strips self fuel { me with speed := speed } g2) ∧
      (columnTaken (view strips self { me with speed := speed }) column speed me.y
          = some false →
        spawnLoop strips self (fuel + 1) me g = some ({ me with speed := speed }, column, g2)) ∧
      ((∀ s ∈ view strips self { me with speed := speed }, ∃ t, tailEnd s = some t) →
        ∃ b, columnTaken (view strips self { me with speed := speed }) column speed me.y
          = some b) ∧
      (∀ (head : Int) (g0 : Rng) (me1 : Strip) (g3 : Rng),
        priv_spawn strips self me head g0 = some (me1, g3) →
        ¬ ∃ s ∈ view strips self { me1 with x := me.x }, s.x = me1.x ∧
          (me1.speed ≥ s.speed ∨ ∃ t, tailEnd s = some t ∧ me1.y ≥ t)) := by
  refine ⟨fun b hb => (columnTaken_eq_some hb).1, ?_, ?_, ?_, ?_⟩
  · intro ht
    simp only [spawnLoop, hspeed, hcolumn, Option.some_bind, ht, if_true]
  · intro ht
    simp only [spawnLoop, hspeed, hcolumn, Option.some_bind, ht, Bool.false_eq_true, if_false]
  · intro hall
    exact columnTaken_isSome _ _ _ _ hall
  · intro head g0 me1 g3 h
    rw [← (columnTaken_eq_some (priv_spawn_spec h).2.2.2.2.2.2.2).1]
    simp

theorem spawn_rejects_iff_witness :
    randomValueFloat minStripSpeed maxStripSpeed ⟨[0, 1], [30, 15]⟩ = some (30, ⟨[0, 1], [15]⟩) ∧
    randomValue 0 (⟨5, -8, 12, 0, false, ⟨73, 49⟩, -1⟩ : Strip).max.x ⟨[0, 1], [15]⟩
      = some (0, ⟨[1], [15]⟩) ∧
    columnTaken (view [⟨0, 40, 10, 20, false, ⟨73, 49⟩, 40⟩] none
      { (⟨5, -8, 12, 0, false, ⟨73, 49⟩, -1⟩ : Strip) with speed := 30 }) 0 30 (-8)
      = some true ∧
    spawnLoop [⟨0, 40, 10, 20, false, ⟨73, 49⟩, 40⟩] none (1 + 1)
        ⟨5, -8, 12, 0, false, ⟨73, 49⟩, -1⟩ ⟨[0, 1], [30, 15]⟩
      = spawnLoop [⟨0, 40, 10, 20, false, ⟨73, 49⟩, 40⟩] none 1
        { (⟨5, -8, 12, 0, false, ⟨73, 49⟩, -1⟩ : Strip) with speed := 30 } ⟨[1], [15]⟩ :=
  ⟨by decide!, by decide!, by decide!,
    (spawn_rejects_iff [⟨0, 40, 10, 20, false, ⟨73, 49⟩, 40⟩] none
      ⟨5, -8, 12, 0, false, ⟨73, 49⟩, -1⟩ 1 ⟨[0, 1], [30, 15]⟩ ⟨[0, 1], [15]⟩ ⟨[1], [15]⟩ 30 0
      (by decide!) (by decide!)).2.1 (by decide!)⟩

/-- C9 as stated fails: the strip in column 0 is slower than the candidate (20 against 30)
and the candidate's position -8 is far above the strip's tail and extension (40 - 10 - 3),
so that no strip has the column, a speed not greater AND the candidate within its tail;
the loop rejects the candidate all the same and the spawn takes the next one, column 1. -/
theorem spawn_rejects_iff_counterexample :
    (¬ ∃ s ∈ [(⟨0, 40, 10, 20, false, ⟨73, 49⟩, 40⟩ : Strip)], s.x = 0 ∧ ((30 : ℚ) ≥ s.speed ∧
        (-8 : ℚ) ≥ s.y - s.length - tailExtensionLength)) ∧
      tailEnd ⟨0, 40, 10, 20, false, ⟨73, 49⟩, 40⟩ = some 27 ∧
      columnTaken [⟨0, 40, 10, 20, false, ⟨73, 49⟩, 40⟩] 0 30 (-8) = some true ∧
      priv_spawn [⟨0, 40, 10, 20, false, ⟨73, 49⟩, 40⟩] none
          ⟨5, 0, 0, 0, false, ⟨73, 49⟩, -1⟩ 0 ⟨[12, 7, 0, 1], [30, 15]⟩
        = some (⟨1, -8, 12, 15, false, ⟨73, 49⟩, -1⟩, ⟨[], []⟩) := by
  refine ⟨?_, by decide!, by decide!, by decide!⟩
  simp only [List.mem_singleton, exists_eq_left, tailExtensionLength]
  norm_num

/-- C10, as the code has it: a spawn given a negative initial head row `h` stores `h` as
the head row and sets the position to `h - 1` computed in `float` (`startAt`), which is
`h - 1` itself when `h` is above `-2^24`; a spawn given a non-negative initial head row
leaves the stored head row as it was and sets the position to `-1 - d` computed in `float`
(`startAbove`), which is `-1 - d` itself when `d` is below `2^24`, where `d`, the second
integer drawn, is in `[0, max.y]`. The position is negative in both cases. -/
theorem priv_spawn_start (strips : List Strip) (self : Option Nat) (me : Strip) (head : Int)
    (g : Rng) (me1 : Strip) (g1 : Rng)
    (h : priv_spawn strips self me head g = some (me1, g1)) :
    (head < 0 → me1.m_head = head ∧ startAt head = some me1.y ∧
        (-(2 ^ 24) < head → me1.y = (head : ℚ) - 1) ∧ me1.y < 0) ∧
      (0 ≤ head → me1.m_head = me.m_head ∧
        ∃ (d : Nat) (rest : List Nat), d ≤ me.max.y ∧ startAbove d = some me1.y ∧
          (d < 2 ^ 24 → me1.y = -1 - (d : ℚ)) ∧ me1.y < 0 ∧
          g.ints = me1.length :: d :: rest) := by
  obtain ⟨-, -, -, -, -, c6, c7, -⟩ := priv_spawn_spec h
  constructor
  · intro hh
    obtain ⟨a1, a2⟩ := c6 hh
    refine ⟨a1, a2, fun hlow => ?_, startAt_neg a2 hh⟩
    rw [startAt_exact hlow hh] at a2
    exact (Option.some.inj a2).symm
  · intro hh
    obtain ⟨a1, d, rest, a2, a3, a4⟩ := c7 hh
    refine ⟨a1, d, rest, a2, a3, fun hd => ?_, ?_, a4⟩
    · rw [startAbove_exact hd] at a3
      exact (Option.some.inj a3).symm
    · have := startAbove_le a3
      linarith

theorem priv_spawn_start_witness :
    Strip.new [] ⟨73, 49⟩ (-4) ⟨[75, 0], [10]⟩
      = some (⟨0, -5, 75, 10, false, ⟨73, 49⟩, -4⟩, ⟨[], []⟩) ∧ (-4 : Int) < 0 ∧
    ((-4 : Int) = -4 ∧ startAt (-4) = some (-5) ∧
      (-(2 ^ 24) < (-4 : Int) → (-5 : ℚ) = ((-4 : Int) : ℚ) - 1) ∧ (-5 : ℚ) < 0) :=
  ⟨by decide!, by decide,
    (priv_spawn_start [] none ⟨0, 0, 0, 0, false, ⟨73, 49⟩, -1⟩ (-4) ⟨[75, 0], [10]⟩
      ⟨0, -5, 75, 10, false, ⟨73, 49⟩, -4⟩ ⟨[], []⟩ (by decide!)).1 (by decide)⟩

/-- C10 as stated fails in both halves: given the non-negative head row 5, the spawn leaves
the stored head row at -1 and places the strip at `-1 - 7`; given the negative head row
-100, it places the strip at -101, which is not `-1 - d` for any `d` in `[0, max.y]`,
`max.y` being 49, and it has drawn nothing but the length and the column. -/
theorem priv_spawn_start_counterexample :
    (Strip.new [] ⟨73, 49⟩ 5 ⟨[10, 7, 0], [20]⟩
        = some (⟨0, -8, 10, 20, false, ⟨73, 49⟩, -1⟩, ⟨[], []⟩) ∧ (-1 : Int) ≠ 5) ∧
      (Strip.new [] ⟨73, 49⟩ (-100) ⟨[10, 0], [20]⟩
        = some (⟨0, -101, 10, 20, false, ⟨73, 49⟩, -100⟩, ⟨[], []⟩) ∧
        ¬ ∃ d : Nat, d ≤ 49 ∧ (-101 : ℚ) = -1 - (d : ℚ)) := by
  refine ⟨⟨by decide!, by decide⟩, by decide!, ?_⟩
  rintro ⟨d, hd, he⟩
  have h1 : (d : ℚ) = 100 := by linarith
  have h2 : d = 100 := by exact_mod_cast h1
  omega

end CodeRain
